import Mathlib

/-!
Verification of the KeyboardMouseShare communication core against its
specification.  The Python sources are shallowly embedded: each Lean
definition mirrors one Python function (validators, the `Device` and
`InputEvent` dataclass constructors, the `InputRelay` queue/batch/forward
pipeline, the `DiscoveryService` state machine, and the length-prefixed
message protocol of `ConnectionHandler`), and the theorems settle the
spec's testable properties over those definitions.

Strings are Lean `String`s, byte streams are `List Nat` with each entry
below 256, machine integers are `Int`/`Nat` (Python integers are
unbounded, so no wrap-around modelling is needed), wall-clock instants
are whole seconds (`Int`) except where the calendar structure of
`datetime` matters, where an explicit `PyDateTime` record is used.
-/

namespace KMS

/-! ## src/utils/validators.py -/

/-- A regex character range `[lo-hi]`. -/
def inRange (lo hi c : Char) : Bool :=
  lo ≤ c && c ≤ hi

/-- Character class `[0-9A-Fa-f]` used by the MAC and UUID patterns. -/
def isHexChar (c : Char) : Bool :=
  inRange '0' '9' c || inRange 'A' 'F' c || inRange 'a' 'f' c

/-- Character class `[0-9]` (`\d` restricted to ASCII, which is all the
repository ever feeds these validators). -/
def isDigitChar (c : Char) : Bool :=
  '0' ≤ c && c ≤ '9'

/-- CPython `re`: in a pattern `^X$` run with `re.match`, the `$` anchor also
matches just before a single trailing newline, so `s` matches iff the core
matches `s` itself or `s` minus one final newline. -/
def dollarAnchored (core : List Char → Bool) (cs : List Char) : Bool :=
  core cs || (cs.getLast? == some '\n' && core cs.dropLast)

/-- Core of the pattern `^([0-9A-Fa-f]{2}[:-]){5}([0-9A-Fa-f]{2})$`:
five hex pairs each followed by `:` or `-`, then a final hex pair. -/
def macCore : Nat → List Char → Bool
  | 0, [a, b] => isHexChar a && isHexChar b
  | n + 1, a :: b :: s :: rest =>
      isHexChar a && isHexChar b && (s == ':' || s == '-') && macCore n rest
  | _, _ => false

/-- `validate_mac_address` from `src/utils/validators.py`. -/
def validate_mac_address (mac : String) : Bool :=
  dollarAnchored (macCore 5) mac.toList

/-- Consume exactly `n` hex characters. -/
def hexRun : Nat → List Char → Option (List Char)
  | 0, cs => some cs
  | n + 1, c :: cs => if isHexChar c then hexRun n cs else none
  | _ + 1, [] => none

/-- Core of the UUID pattern `^[0-9a-f]{8}-...{4}-...{4}-...{4}-...{12}$`
(compiled with `re.IGNORECASE`, hence `isHexChar`). -/
def uuidCore (cs : List Char) : Bool :=
  match hexRun 8 cs with
  | some ('-' :: r1) =>
    match hexRun 4 r1 with
    | some ('-' :: r2) =>
      match hexRun 4 r2 with
      | some ('-' :: r3) =>
        match hexRun 4 r3 with
        | some ('-' :: r4) =>
          match hexRun 12 r4 with
          | some [] => true
          | _ => false
        | _ => false
      | _ => false
    | _ => false
  | _ => false

/-- `validate_uuid` from `src/utils/validators.py`. -/
def validate_uuid (uuid_str : String) : Bool :=
  dollarAnchored uuidCore uuid_str.toList

/-- `validate_port` from `src/utils/validators.py`: `1 <= port <= 65535`.
(The docstring of `Device` narrows this to 1024–65535, but the executed
check is the full registered range starting at 1.) -/
def validate_port (port : Int) : Bool :=
  1 ≤ port && port ≤ 65535

/-- Character class `[a-zA-Z0-9\s\-']` of the device-name pattern; `\s` is
modelled by its ASCII members (space, TAB, LF, VT, FF, CR), the only ones
that occur in this system. -/
def isPySpace (c : Char) : Bool :=
  c.toNat == 32 || (9 ≤ c.toNat && c.toNat ≤ 13)

def isNameChar (c : Char) : Bool :=
  inRange 'a' 'z' c || inRange 'A' 'Z' c || inRange '0' '9' c ||
  isPySpace c || c == '-' || c == (Char.ofNat 39)

/-- Core of the pattern `^[a-zA-Z0-9\s\-']+$`: one or more name characters. -/
def nameCore (cs : List Char) : Bool :=
  !cs.isEmpty && cs.all isNameChar

/-- `validate_device_name` from `src/utils/validators.py` (default
`max_length = 50`): rejects empty names, names over `max_length`, and
names with characters outside the class. -/
def validate_device_name (name : String) (max_length : Nat := 50) : Bool :=
  if name.isEmpty then false
  else if name.length > max_length then false
  else dollarAnchored nameCore name.toList

/-- One `\d{1,3}` octet of the IPv4 pattern together with its `0 <= int(part)
<= 255` value check. -/
def ipv4Octet (cs : List Char) : Bool :=
  match cs with
  | [a] => isDigitChar a
  | [a, b] => isDigitChar a && isDigitChar b
  | [a, b, c] => isDigitChar a && isDigitChar b && isDigitChar c &&
      (a.toNat - '0'.toNat) * 100 + (b.toNat - '0'.toNat) * 10 + (c.toNat - '0'.toNat) ≤ 255
  | _ => false

/-- Split on a separator character (no merging of adjacent separators),
mirroring Python `str.split(sep)`. -/
def splitOnChar (sep : Char) (cs : List Char) : List (List Char) :=
  match cs with
  | [] => [[]]
  | c :: rest =>
    let groups := splitOnChar sep rest
    if c == sep then [] :: groups
    else match groups with
      | g :: gs => (c :: g) :: gs
      | [] => [[c]]

/-- Core of the IPv4 branch `^(\d{1,3}\.){3}\d{1,3}$` plus the octet value
check performed on `ip.split(".")`. -/
def ipv4Core (cs : List Char) : Bool :=
  match splitOnChar '.' cs with
  | [a, b, c, d] => ipv4Octet a && ipv4Octet b && ipv4Octet c && ipv4Octet d
  | _ => false

/-- One `[\da-fA-F]{0,4}` group of the (simplified) IPv6 pattern. -/
def ipv6Group (cs : List Char) : Bool :=
  cs.length ≤ 4 && cs.all isHexChar

/-- Core of the IPv6 branch `^([\da-fA-F]{0,4}:){2,7}[\da-fA-F]{0,4}$`. -/
def ipv6Core (cs : List Char) : Bool :=
  match splitOnChar ':' cs with
  | groups => 3 ≤ groups.length && groups.length ≤ 8 && groups.all ipv6Group

/-- `validate_ip_address` from `src/utils/validators.py`. -/
def validate_ip_address (ip : String) : Bool :=
  dollarAnchored ipv4Core ip.toList || dollarAnchored ipv6Core ip.toList

/-- `validate_os_type` from `src/utils/validators.py`. -/
def validate_os_type (os_type : String) : Bool :=
  os_type == "Windows" || os_type == "Darwin"

/-! ## src/models/device.py -/

/-- `DeviceRole` enum. -/
inductive DeviceRole where
  | MASTER
  | CLIENT
  | UNASSIGNED
deriving DecidableEq, Repr

def DeviceRole.value : DeviceRole → String
  | .MASTER => "MASTER"
  | .CLIENT => "CLIENT"
  | .UNASSIGNED => "UNASSIGNED"

/-- `DeviceOS` enum. -/
inductive DeviceOS where
  | WINDOWS
  | MACOS
deriving DecidableEq, Repr

def DeviceOS.value : DeviceOS → String
  | .WINDOWS => "Windows"
  | .MACOS => "Darwin"

/-- The `Device` dataclass fields.  Timestamps are modelled as whole seconds
(`Int`); `__post_init__` never inspects them. -/
structure Device where
  id : String
  mac_address : String
  name : String
  os : DeviceOS
  role : DeviceRole
  ip_address : Option String
  port : Int
  version : String
  is_registered : Bool
  created_at : Int
  last_seen : Int
deriving DecidableEq, Repr

/-- `Device.__post_init__` validation, in source order; a failing check
raises `ValueError`, modelled as `none`.  (`validate_os_type(str(self.os.value))`
is also run, although it holds for both enum members.) -/
def Device.validate (d : Device) : Bool :=
  validate_uuid d.id &&
  (d.mac_address.isEmpty || validate_mac_address d.mac_address) &&
  validate_device_name d.name &&
  validate_port d.port &&
  (match d.ip_address with
   | none => true
   | some ip => ip.isEmpty || validate_ip_address ip) &&
  validate_os_type d.os.value

/-- Constructing a `Device(...)`: the dataclass body runs `__post_init__`,
so a `Device` value escapes only when every check passes. -/
def Device.make (d : Device) : Option Device :=
  if d.validate then some d else none

/-! ## JSON values

Python passes event payloads and message bodies around as `dict`s built
from JSON-serializable values.  `JVal` models those values: `None`, `bool`,
`int`, `str`, `list`, `dict` (with string keys, in insertion order).
Mutual inductives (rather than a nested `List`) keep every function over
them structurally recursive. -/

mutual

inductive JVal where
  | null
  | bool (b : Bool)
  | int (n : Int)
  | str (s : String)
  | arr (elems : JItems)
  | obj (members : JMembers)
deriving DecidableEq

inductive JItems where
  | nil
  | cons (hd : JVal) (tl : JItems)
deriving DecidableEq

inductive JMembers where
  | nil
  | cons (key : String) (val : JVal) (tl : JMembers)
deriving DecidableEq

end

/-- Python `key in dict`. -/
def JMembers.hasKey : JMembers → String → Bool
  | .nil, _ => false
  | .cons k _ tl, key => k == key || tl.hasKey key

/-- Python `dict.get(key)`: the value stored at the key, if any. -/
def JMembers.get : JMembers → String → Option JVal
  | .nil, _ => none
  | .cons k v tl, key => if k == key then some v else tl.get key

/-! ### `json.dumps` (CPython, `ensure_ascii=True`, default separators)

The printer renders to `List Char`.  With `ensure_ascii` every character
outside `0x20`–`0x7e` is `\uXXXX`-escaped (astral characters as a UTF-16
surrogate pair), so the output is pure ASCII.  The default separators are
a comma-space between items and a colon-space after keys.  JSON numbers
are restricted to the integers, the only numbers this system serializes
(floats are outside the model). -/

/-- The `{` character (spelled via its code point). -/
def lbrace : Char := Char.ofNat 123

/-- The `}` character (spelled via its code point). -/
def rbrace : Char := Char.ofNat 125

/-- Lower-case hex digit for `n < 16`. -/
def hexDigitLower (n : Nat) : Char :=
  if n < 10 then Char.ofNat ('0'.toNat + n) else Char.ofNat ('a'.toNat + n - 10)

/-- `\uXXXX` escape of a code unit `n < 0x10000`. -/
def uEscape (n : Nat) : List Char :=
  ['\\', 'u', hexDigitLower (n / 4096 % 16), hexDigitLower (n / 256 % 16),
   hexDigitLower (n / 16 % 16), hexDigitLower (n % 16)]

/-- One string character as `py_encode_basestring_ascii` renders it: the
seven named escapes, `\u00XX` for the other control characters, printable
ASCII verbatim, and `\uXXXX` (with surrogate pairs beyond the BMP) for
everything non-ASCII. -/
def escapeChar (c : Char) : List Char :=
  if c = '"' then ['\\', '"']
  else if c = '\\' then ['\\', '\\']
  else if c = '\n' then ['\\', 'n']
  else if c = '\r' then ['\\', 'r']
  else if c = '\t' then ['\\', 't']
  else if c = Char.ofNat 8 then ['\\', 'b']
  else if c = Char.ofNat 12 then ['\\', 'f']
  else if c.toNat < 0x20 then uEscape c.toNat
  else if c.toNat < 0x7f then [c]
  else if c.toNat < 0x10000 then uEscape c.toNat
  else
    uEscape (0xD800 + (c.toNat - 0x10000) / 0x400)
      ++ uEscape (0xDC00 + (c.toNat - 0x10000) % 0x400)

/-- A rendered JSON string: quote, escaped characters, quote. -/
def strChars (s : String) : List Char :=
  '"' :: (s.toList.flatMap escapeChar ++ ['"'])

/-- Decimal digits of `n`, most significant first (`fuel`-structured; any
fuel above the digit count gives the digits of `n`). -/
def natDigitsGo : Nat → Nat → List Char
  | 0, _ => []
  | fuel + 1, n =>
    if n < 10 then [Char.ofNat ('0'.toNat + n)]
    else natDigitsGo fuel (n / 10) ++ [Char.ofNat ('0'.toNat + n % 10)]

/-- Decimal digits of `n` (as `str(n)` renders a non-negative int). -/
def natChars (n : Nat) : List Char := natDigitsGo (n + 1) n

/-- `str(i)` for a Python int: optional minus sign, then digits. -/
def intChars (i : Int) : List Char :=
  (if i < 0 then ['-'] else []) ++ natChars i.natAbs

mutual

/-- Render one JSON value (`json.dumps` with the default separators). -/
def JVal.dumps : JVal → List Char
  | .null => "null".toList
  | .bool true => "true".toList
  | .bool false => "false".toList
  | .int n => intChars n
  | .str s => strChars s
  | .arr .nil => ['[', ']']
  | .arr (.cons v tl) => '[' :: (JVal.dumps v ++ (JItems.dumpsTail tl ++ [']']))
  | .obj .nil => [lbrace, rbrace]
  | .obj (.cons k v tl) =>
    lbrace :: (strChars k ++ ':' :: ' ' :: (JVal.dumps v ++ (JMembers.dumpsTail tl ++ [rbrace])))

/-- Second and later array items, each preceded by the `", "` separator. -/
def JItems.dumpsTail : JItems → List Char
  | .nil => []
  | .cons v tl => ',' :: ' ' :: (JVal.dumps v ++ JItems.dumpsTail tl)

/-- Second and later object members, each preceded by `", "`, with the
`": "` key separator. -/
def JMembers.dumpsTail : JMembers → List Char
  | .nil => []
  | .cons k v tl =>
    ',' :: ' ' :: (strChars k ++ ':' :: ' ' :: (JVal.dumps v ++ JMembers.dumpsTail tl))

end

/-! ### `json.loads` (CPython scanner)

The parser consumes a `List Char` and mirrors the stdlib scanner on the
value domain above: strict strings (raw control characters rejected,
`\uXXXX` escapes with surrogate-pair joining; a *lone* surrogate — which
CPython would smuggle into a `str` but a Lean `Char` cannot hold — fails
the parse, and is never produced by the printer), integers with the
leading-zero restriction (a fraction or exponent would decode to a float,
outside the model, and is rejected; the printer never emits one), arrays
and objects with arbitrary interleaved whitespace.  Recursion is
structural on an explicit fuel; `json_loads` supplies more fuel than any
input can consume. -/

/-- JSON whitespace accepted by the scanner. -/
def jspace (c : Char) : Bool :=
  c = ' ' || c = '\t' || c = '\n' || c = '\r'

/-- Skip JSON whitespace. -/
def skipSpace : List Char → List Char
  | [] => []
  | c :: r => if jspace c then skipSpace r else c :: r

/-- Value of one hex digit (either case). -/
def hexVal (c : Char) : Option Nat :=
  if inRange '0' '9' c then some (c.toNat - '0'.toNat)
  else if inRange 'a' 'f' c then some (c.toNat - 'a'.toNat + 10)
  else if inRange 'A' 'F' c then some (c.toNat - 'A'.toNat + 10)
  else none

/-- Value of a 4-hex-digit escape. -/
def hex4 (a b c d : Char) : Option Nat :=
  match hexVal a, hexVal b, hexVal c, hexVal d with
  | some va, some vb, some vc, some vd => some (((va * 16 + vb) * 16 + vc) * 16 + vd)
  | _, _, _, _ => none

/-- The single-character escapes `loads` accepts. -/
def unescapeChar (c : Char) : Option Char :=
  if c = '"' then some '"'
  else if c = '\\' then some '\\'
  else if c = '/' then some '/'
  else if c = 'b' then some (Char.ofNat 8)
  else if c = 'f' then some (Char.ofNat 12)
  else if c = 'n' then some '\n'
  else if c = 'r' then some '\r'
  else if c = 't' then some '\t'
  else none

/-- Resolution of a `\uXXXX` escape with value `n`: a high surrogate must
be followed by a `\uXXXX` low surrogate (the pair is joined, as CPython
does); a lone low surrogate fails (CPython would produce a lone-surrogate
`str`, which a Lean `Char` cannot hold — never produced by the printer);
anything else is the code point itself. -/
def hexEsc (n : Nat) (r2 : List Char) : Option (Char × List Char) :=
  if 0xD800 ≤ n ∧ n < 0xDC00 then
    match r2 with
    | '\\' :: 'u' :: a2 :: b2 :: c3 :: d2 :: r3 =>
      match hex4 a2 b2 c3 d2 with
      | some m =>
        if 0xDC00 ≤ m ∧ m < 0xE000 then
          some (Char.ofNat (0x10000 + (n - 0xD800) * 0x400 + (m - 0xDC00)), r3)
        else none
      | none => none
    | _ => none
  else if 0xDC00 ≤ n ∧ n < 0xE000 then none
  else some (Char.ofNat n, r2)

/-- Decode one escape sequence (after the backslash): the decoded
character and the remaining input. -/
def decodeEsc : List Char → Option (Char × List Char)
  | 'u' :: a :: b :: c2 :: d :: r2 =>
    match hex4 a b c2 d with
    | none => none
    | some n => hexEsc n r2
  | e :: r2 =>
    match unescapeChar e with
    | some ch => some (ch, r2)
    | none => none
  | [] => none

/-- String body parser (after the opening quote), accumulator reversed.
One fuel unit per decoded character; any fuel above the input length
suffices. -/
def parseStrBody : Nat → List Char → List Char → Option (String × List Char)
  | 0, _, _ => none
  | fuel + 1, acc, input =>
    match input with
    | [] => none
    | c :: r =>
      if c = '"' then some (String.mk acc.reverse, r)
      else if c = '\\' then
        (decodeEsc r).bind (fun p => parseStrBody fuel (p.1 :: acc) p.2)
      else if c.toNat < 0x20 then none
      else parseStrBody fuel (c :: acc) r

/-- Longest leading digit run. -/
def takeDigitsRun : List Char → List Char × List Char
  | [] => ([], [])
  | c :: r =>
    if isDigitChar c then
      let p := takeDigitsRun r
      (c :: p.1, p.2)
    else ([], c :: r)

/-- Numeric value of a digit run. -/
def digitsVal (ds : List Char) : Nat :=
  ds.foldl (fun a c => a * 10 + (c.toNat - '0'.toNat)) 0

/-- Unsigned integer token: a nonempty digit run, no leading zero (except
`0` itself), and no following `.`/`e`/`E` (which would make it a float,
outside the model). -/
def parseNatTok (cs : List Char) : Option (Nat × List Char) :=
  let p := takeDigitsRun cs
  match p.1 with
  | [] => none
  | d :: ds =>
    if d = '0' ∧ ds ≠ [] then none
    else
      match p.2 with
      | c :: _ =>
        if c = '.' ∨ c = 'e' ∨ c = 'E' then none else some (digitsVal (d :: ds), p.2)
      | [] => some (digitsVal (d :: ds), [])

/-- Signed integer token. -/
def parseIntTok (cs : List Char) : Option (Int × List Char) :=
  match cs with
  | [] => none
  | c :: r =>
    if c = '-' then
      match parseNatTok r with
      | some (n, r2) => some (-(n : Int), r2)
      | none => none
    else
      match parseNatTok (c :: r) with
      | some (n, r2) => some ((n : Int), r2)
      | none => none

/-- A remainder that cannot extend a rendered integer: empty, or headed by
a character that is neither a digit nor `.`, `e`, `E`.  Every JSON
delimiter the printer can emit after a number qualifies. -/
def numDelim : List Char → Bool
  | [] => true
  | c :: _ => !(isDigitChar c || c = '.' || c = 'e' || c = 'E')

mutual

/-- Parse one JSON value, skipping leading whitespace. -/
def parseVal : Nat → List Char → Option (JVal × List Char)
  | 0, _ => none
  | fuel + 1, cs =>
    match skipSpace cs with
    | [] => none
    | c :: r =>
      if c = 'n' then
        match r with
        | 'u' :: 'l' :: 'l' :: r2 => some (.null, r2)
        | _ => none
      else if c = 't' then
        match r with
        | 'r' :: 'u' :: 'e' :: r2 => some (.bool true, r2)
        | _ => none
      else if c = 'f' then
        match r with
        | 'a' :: 'l' :: 's' :: 'e' :: r2 => some (.bool false, r2)
        | _ => none
      else if c = '"' then
        match parseStrBody (r.length + 1) [] r with
        | some (s, r2) => some (.str s, r2)
        | none => none
      else if c = '[' then
        match skipSpace r with
        | [] => none
        | c2 :: r2 =>
          if c2 = ']' then some (.arr .nil, r2)
          else
            match parseItems fuel (c2 :: r2) with
            | some (xs, r3) => some (.arr xs, r3)
            | none => none
      else if c = lbrace then
        match skipSpace r with
        | [] => none
        | c2 :: r2 =>
          if c2 = rbrace then some (.obj .nil, r2)
          else
            match parseMembers fuel (c2 :: r2) with
            | some (ms, r3) => some (.obj ms, r3)
            | none => none
      else if c = '-' ∨ isDigitChar c then
        match parseIntTok (c :: r) with
        | some (n, r2) => some (.int n, r2)
        | none => none
      else none

/-- Parse one-or-more comma-separated array items up to `]`. -/
def parseItems : Nat → List Char → Option (JItems × List Char)
  | 0, _ => none
  | fuel + 1, cs =>
    match parseVal fuel cs with
    | none => none
    | some (v, r) =>
      match skipSpace r with
      | [] => none
      | c :: r2 =>
        if c = ',' then
          match parseItems fuel r2 with
          | some (xs, r3) => some (.cons v xs, r3)
          | none => none
        else if c = ']' then some (.cons v .nil, r2)
        else none

/-- Parse one-or-more comma-separated object members up to the closing
brace. -/
def parseMembers : Nat → List Char → Option (JMembers × List Char)
  | 0, _ => none
  | fuel + 1, cs =>
    match skipSpace cs with
    | c :: r =>
      if c = '"' then
        match parseStrBody (r.length + 1) [] r with
        | some (k, r1) =>
          match skipSpace r1 with
          | [] => none
          | c1 :: r2 =>
            if c1 = ':' then
              match parseVal fuel r2 with
              | some (v, r3) =>
                match skipSpace r3 with
                | [] => none
                | c2 :: r4 =>
                  if c2 = ',' then
                    match parseMembers fuel r4 with
                    | some (ms, r5) => some (.cons k v ms, r5)
                    | none => none
                  else if c2 = rbrace then some (.cons k v .nil, r4)
                  else none
              | none => none
            else none
        | none => none
      else none
    | [] => none

end

/-- `json.loads`: parse one document, requiring only whitespace after it. -/
def json_loads (cs : List Char) : Option JVal :=
  match parseVal (cs.length + 1) cs with
  | some (v, r) => if (skipSpace r).isEmpty then some v else none
  | none => none

/-! ### UTF-8 (`str.encode("utf-8")` / `bytes.decode("utf-8")`)

Bytes are `Nat`s below 256.  The decoder is the strict stdlib one:
continuation bytes checked, overlong forms, surrogates and out-of-range
values rejected. -/

/-- UTF-8 bytes of one character. -/
def utf8EncodeChar (c : Char) : List Nat :=
  let v := c.toNat
  if v < 0x80 then [v]
  else if v < 0x800 then [0xC0 + v / 64, 0x80 + v % 64]
  else if v < 0x10000 then [0xE0 + v / 4096, 0x80 + v / 64 % 64, 0x80 + v % 64]
  else [0xF0 + v / 0x40000, 0x80 + v / 4096 % 64, 0x80 + v / 64 % 64, 0x80 + v % 64]

/-- `str.encode("utf-8")`. -/
def utf8Encode (cs : List Char) : List Nat :=
  cs.flatMap utf8EncodeChar

/-- A UTF-8 continuation byte. -/
def contByte (b : Nat) : Bool :=
  0x80 ≤ b && b < 0xC0

/-- One scalar value from a lead byte `b0` and the bytes after it, with
the bytes left over (strict: continuation bytes checked, overlong forms,
surrogates and out-of-range values rejected). -/
def utf8Step (b0 : Nat) (rest : List Nat) : Option (Nat × List Nat) :=
  if b0 < 0x80 then some (b0, rest)
  else if b0 < 0xC0 then none
  else if b0 < 0xE0 then
    match rest with
    | b1 :: r =>
      if contByte b1 then
        let u := (b0 - 0xC0) * 64 + (b1 - 0x80)
        if u < 0x80 then none else some (u, r)
      else none
    | [] => none
  else if b0 < 0xF0 then
    match rest with
    | b1 :: b2 :: r =>
      if contByte b1 && contByte b2 then
        let u := (b0 - 0xE0) * 4096 + (b1 - 0x80) * 64 + (b2 - 0x80)
        if u < 0x800 ∨ (0xD800 ≤ u ∧ u < 0xE000) then none else some (u, r)
      else none
    | _ => none
  else if b0 < 0xF8 then
    match rest with
    | b1 :: b2 :: b3 :: r =>
      if contByte b1 && contByte b2 && contByte b3 then
        let u := (b0 - 0xF0) * 0x40000 + (b1 - 0x80) * 4096
                   + (b2 - 0x80) * 64 + (b3 - 0x80)
        if u < 0x10000 ∨ 0x110000 ≤ u then none else some (u, r)
      else none
    | _ => none
  else none

/-- `bytes.decode("utf-8")`, scalar by scalar (`fuel`-structured; any fuel
above the byte count decodes the whole input). -/
def utf8DecodeGo : Nat → List Nat → Option (List Char)
  | 0, _ => none
  | _ + 1, [] => some []
  | fuel + 1, b0 :: rest =>
    match utf8Step b0 rest with
    | some (v, r) =>
      match utf8DecodeGo fuel r with
      | some cs => some (Char.ofNat v :: cs)
      | none => none
    | none => none

/-- `bytes.decode("utf-8")` (strict): `none` models `UnicodeDecodeError`. -/
def utf8Decode (bs : List Nat) : Option (List Char) :=
  utf8DecodeGo (bs.length + 1) bs

/-! ## src/network/connection.py — the message protocol

`send_message` serializes `{"msg_type", "data", "timestamp"}` to JSON,
UTF-8-encodes it and writes a 4-byte big-endian length followed by the
body; `receive_message` reads 4 length bytes (looping over partial
reads), rejects a length of zero or above 1 MiB, reads exactly that many
body bytes, UTF-8-decodes and JSON-parses them.  The byte stream a
receiver sees is a `List Nat`; a `receive_message` call returns the
parsed message (or `none`, the typed failure) together with the bytes it
left unread — an exhausted stream stands for the peer having closed. -/

/-- Frame size limit: `1024 * 1024`. -/
def MAX_MESSAGE : Nat := 1024 * 1024

/-- `length.to_bytes(4, "big")` (defined for `length < 2^32`). -/
def to_bytes_4be (n : Nat) : List Nat :=
  [n / 16777216 % 256, n / 65536 % 256, n / 256 % 256, n % 256]

/-- `int.from_bytes(b, "big")` on 4 bytes. -/
def from_bytes_4be (b0 b1 b2 b3 : Nat) : Nat :=
  ((b0 * 256 + b1) * 256 + b2) * 256 + b3

/-- The message dict `send_message` builds. -/
def messageObj (msg_type : String) (data : JVal) (timestamp : String) : JVal :=
  .obj (.cons "msg_type" (.str msg_type)
    (.cons "data" data (.cons "timestamp" (.str timestamp) .nil)))

/-- `ConnectionHandler.send_message`: the frame the socket carries, `none`
when serialization fails (`to_bytes` overflows at 2^32, caught by the
blanket handler which returns `False`). -/
def send_message (msg_type : String) (data : JVal) (timestamp : String) :
    Option (List Nat) :=
  let json_bytes := utf8Encode (JVal.dumps (messageObj msg_type data timestamp))
  if json_bytes.length < 2 ^ 32 then
    some (to_bytes_4be json_bytes.length ++ json_bytes)
  else none

/-- `ConnectionHandler.receive_message` on the pending byte stream.
Returns the decoded message (`none` on any failure: short read, bad
length, decode error) and the unread remainder of the stream.  On a bad
length the function returns immediately: the payload bytes are not read,
skipped or resynchronized.  (The final debug log calls
`message.get("msg_type")`, so a non-dict document raises
`AttributeError` into the blanket handler and yields `None`.) -/
def receive_message (stream : List Nat) : Option JVal × List Nat :=
  match stream with
  | b0 :: b1 :: b2 :: b3 :: rest =>
    let length := from_bytes_4be b0 b1 b2 b3
    if length = 0 ∨ length > MAX_MESSAGE then (none, rest)
    else if rest.length < length then (none, [])
    else
      match utf8Decode (rest.take length) with
      | none => (none, rest.drop length)
      | some chars =>
        match json_loads chars with
        | none => (none, rest.drop length)
        | some (.obj members) => (some (.obj members), rest.drop length)
        | some _ => (none, rest.drop length)
  | _ => (none, [])

/-! ## Python `datetime`

`InputEvent.timestamp` is a `datetime`; its calendar fields matter for the
`isoformat`/`fromisoformat` round trip.  A timezone is modelled by its
fixed UTC offset in whole minutes (`timezone.utc` is offset 0); a naive
datetime has no offset. -/

structure PyDateTime where
  year : Nat
  month : Nat
  day : Nat
  hour : Nat
  minute : Nat
  second : Nat
  microsecond : Nat
  tzOffsetMinutes : Option Int
deriving DecidableEq, Repr

/-- The bounds `datetime.__new__` enforces (day is further bounded by the
month's length; `1 ≤ day ≤ 31` is the part the round trip needs).  A
`timezone` offset is strictly between -24h and +24h. -/
def PyDateTime.valid (t : PyDateTime) : Bool :=
  1 ≤ t.year && t.year ≤ 9999 && 1 ≤ t.month && t.month ≤ 12 &&
  1 ≤ t.day && t.day ≤ 31 && t.hour ≤ 23 && t.minute ≤ 59 &&
  t.second ≤ 59 && t.microsecond ≤ 999999 &&
  (match t.tzOffsetMinutes with
   | none => true
   | some m => -1439 ≤ m && m ≤ 1439)

/-! ## src/models/input_event.py -/

/-- `InputEventType` enum. -/
inductive InputEventType where
  | KEY_PRESS
  | KEY_RELEASE
  | MOUSE_MOVE
  | MOUSE_CLICK
  | MOUSE_RELEASE
  | MOUSE_SCROLL
deriving DecidableEq, Repr

def InputEventType.value : InputEventType → String
  | .KEY_PRESS => "KEY_PRESS"
  | .KEY_RELEASE => "KEY_RELEASE"
  | .MOUSE_MOVE => "MOUSE_MOVE"
  | .MOUSE_CLICK => "MOUSE_CLICK"
  | .MOUSE_RELEASE => "MOUSE_RELEASE"
  | .MOUSE_SCROLL => "MOUSE_SCROLL"

/-- The `InputEvent` dataclass fields. -/
structure InputEvent where
  id : String
  event_type : InputEventType
  source_device_id : String
  target_device_id : String
  payload : JMembers
  timestamp : PyDateTime
  is_encrypted : Bool
deriving DecidableEq

/-- `InputEvent._validate_payload`: the payload `dict` must contain the
keys the event type requires (`keycode`; `x` and `y`; `button`;
`scroll_delta`). -/
def InputEvent.payloadMatches (event_type : InputEventType) (payload : JMembers) : Bool :=
  match event_type with
  | .KEY_PRESS | .KEY_RELEASE => payload.hasKey "keycode"
  | .MOUSE_MOVE => payload.hasKey "x" && payload.hasKey "y"
  | .MOUSE_CLICK | .MOUSE_RELEASE => payload.hasKey "button"
  | .MOUSE_SCROLL => payload.hasKey "scroll_delta"

/-- `InputEvent.__post_init__`: both device ids must be UUIDs and the
payload must match the event type. -/
def InputEvent.validate (e : InputEvent) : Bool :=
  validate_uuid e.source_device_id &&
  validate_uuid e.target_device_id &&
  InputEvent.payloadMatches e.event_type e.payload

/-- Constructing an `InputEvent(...)`: `__post_init__` runs and a failing
check raises `ValueError`, modelled as `none`. -/
def InputEvent.make (e : InputEvent) : Option InputEvent :=
  if e.validate then some e else none

/-! ### `datetime.isoformat` / `datetime.fromisoformat` -/

/-- `n` rendered to exactly `w` digits, zero-padded, as the fixed-width
fields of `isoformat` are printed. -/
def padNat (w n : Nat) : List Char :=
  List.replicate (w - (natChars n).length) '0' ++ natChars n

/-- `datetime.isoformat()`: `YYYY-MM-DDTHH:MM:SS`, a `.ffffff` part only
when the microsecond field is nonzero, and `±HH:MM` for an attached
fixed-offset timezone (whole minutes, as `timezone` offsets here are). -/
def PyDateTime.isoformat (t : PyDateTime) : List Char :=
  padNat 4 t.year ++ '-' :: (padNat 2 t.month ++ '-' :: (padNat 2 t.day
    ++ 'T' :: (padNat 2 t.hour ++ ':' :: (padNat 2 t.minute ++ ':' :: (padNat 2 t.second
    ++ ((if t.microsecond ≠ 0 then '.' :: padNat 6 t.microsecond else [])
      ++ (match t.tzOffsetMinutes with
          | none => []
          | some m =>
            (if m < 0 then '-' else '+')
              :: (padNat 2 (m.natAbs / 60) ++ ':' :: padNat 2 (m.natAbs % 60)))))))))

/-- Exactly `w` digit characters, accumulated left to right. -/
def parseNDigits : Nat → Nat → List Char → Option (Nat × List Char)
  | 0, acc, cs => some (acc, cs)
  | _ + 1, _, [] => none
  | w + 1, acc, c :: r =>
    if isDigitChar c then parseNDigits w (acc * 10 + (c.toNat - '0'.toNat)) r
    else none

/-- One mandatory separator character. -/
def expectChar (c : Char) : List Char → Option (List Char)
  | d :: r => if d = c then some r else none
  | [] => none

/-- The `THH:MM:SS[.ffffff]` part of an isoformat string; a missing time
part reads as midnight. -/
def parseTimePart (cs : List Char) : Option (Nat × Nat × Nat × Nat × List Char) :=
  match cs with
  | [] => some (0, 0, 0, 0, [])
  | c :: r4 =>
    if c = 'T' then
      (parseNDigits 2 0 r4).bind (fun p4 =>
      (expectChar ':' p4.2).bind (fun r5 =>
      (parseNDigits 2 0 r5).bind (fun p5 =>
      (expectChar ':' p5.2).bind (fun r6 =>
      (parseNDigits 2 0 r6).bind (fun p6 =>
        match p6.2 with
        | [] => some (p4.1, p5.1, p6.1, 0, [])
        | c2 :: r7 =>
          if c2 = '.' then
            (parseNDigits 6 0 r7).bind (fun p7 => some (p4.1, p5.1, p6.1, p7.1, p7.2))
          else some (p4.1, p5.1, p6.1, 0, c2 :: r7))))))
    else some (0, 0, 0, 0, c :: r4)

/-- The `±HH:MM` fixed-offset part of an isoformat string. -/
def parseOffsetPart (cs : List Char) : Option (Option Int × List Char) :=
  match cs with
  | [] => some (none, [])
  | c :: r8 =>
    if c = '+' ∨ c = '-' then
      (parseNDigits 2 0 r8).bind (fun p8 =>
      (expectChar ':' p8.2).bind (fun r9 =>
      (parseNDigits 2 0 r9).bind (fun p9 =>
        some (some (if c = '-' then -((p8.1 * 60 + p9.1 : Nat) : Int)
          else ((p8.1 * 60 + p9.1 : Nat) : Int)), p9.2))))
    else none

/-- `datetime.fromisoformat` on the formats `isoformat` emits; the parsed
fields go through the `datetime` constructor's range checks (`ValueError`,
i.e. `none`, when they fail). -/
def PyDateTime.fromisoformat (cs : List Char) : Option PyDateTime :=
  (parseNDigits 4 0 cs).bind (fun p1 =>
  (expectChar '-' p1.2).bind (fun r2 =>
  (parseNDigits 2 0 r2).bind (fun p2 =>
  (expectChar '-' p2.2).bind (fun r3 =>
  (parseNDigits 2 0 r3).bind (fun p3 =>
  (parseTimePart p3.2).bind (fun tp =>
  (parseOffsetPart tp.2.2.2.2).bind (fun op =>
    if op.2.isEmpty then
      if PyDateTime.valid ⟨p1.1, p2.1, p3.1, tp.1, tp.2.1, tp.2.2.1, tp.2.2.2.1, op.1⟩ then
        some ⟨p1.1, p2.1, p3.1, tp.1, tp.2.1, tp.2.2.1, tp.2.2.2.1, op.1⟩
      else none
    else none)))))))

/-- `InputEventType(value)`: lookup by member value (`ValueError`, i.e.
`none`, for an unknown value). -/
def InputEventType.fromValue (s : String) : Option InputEventType :=
  if s = "KEY_PRESS" then some .KEY_PRESS
  else if s = "KEY_RELEASE" then some .KEY_RELEASE
  else if s = "MOUSE_MOVE" then some .MOUSE_MOVE
  else if s = "MOUSE_CLICK" then some .MOUSE_CLICK
  else if s = "MOUSE_RELEASE" then some .MOUSE_RELEASE
  else if s = "MOUSE_SCROLL" then some .MOUSE_SCROLL
  else none

/-- `InputEvent.to_dict`: the JSON-ready dict with the enum's value and
the `isoformat` timestamp. -/
def InputEvent.to_dict (e : InputEvent) : JMembers :=
  .cons "id" (.str e.id)
    (.cons "event_type" (.str e.event_type.value)
      (.cons "source_device_id" (.str e.source_device_id)
        (.cons "target_device_id" (.str e.target_device_id)
          (.cons "payload" (.obj e.payload)
            (.cons "timestamp" (.str (String.mk e.timestamp.isoformat))
              (.cons "is_encrypted" (.bool e.is_encrypted) .nil))))))

/-- `dict[key]` as a string field (a missing key is `KeyError`). -/
def asStr : Option JVal → Option String
  | some (.str s) => some s
  | _ => none

/-- `dict[key]` as a dict field. -/
def asObj : Option JVal → Option JMembers
  | some (.obj ms) => some ms
  | _ => none

/-- `InputEvent.from_dict`: reads the required keys, turns the value
string back into an `InputEventType` and parses the timestamp, then runs
the constructor (with its `__post_init__` validation).  `data.get("id",
str(uuid.uuid4()))` and `data.get("is_encrypted", True)` never raise;
their fresh-uuid/default branches (taken only when the key is absent,
which `to_dict` output never is) are modelled by a placeholder id and
`true`. -/
def InputEvent.from_dict (data : JMembers) : Option InputEvent :=
  (asStr (data.get "event_type")).bind (fun tv =>
  (InputEventType.fromValue tv).bind (fun et =>
  (asStr (data.get "source_device_id")).bind (fun sid =>
  (asStr (data.get "target_device_id")).bind (fun tid =>
  (asObj (data.get "payload")).bind (fun pl =>
  (asStr (data.get "timestamp")).bind (fun ts =>
  (PyDateTime.fromisoformat ts.toList).bind (fun dt =>
    InputEvent.make
      { id := (match data.get "id" with
               | some (.str s) => s
               | _ => "00000000-0000-4000-8000-000000000000"),
        event_type := et,
        source_device_id := sid,
        target_device_id := tid,
        payload := pl,
        timestamp := dt,
        is_encrypted := (match data.get "is_encrypted" with
                         | some (.bool b) => b
                         | _ => true) })))))))

/-! ## src/relay/input_relay.py -/

/-- `RelayConfig` (defaults from the source). -/
structure RelayConfig where
  max_queue_size : Nat := 1000
  max_retries : Nat := 3
  retry_delay_ms : Nat := 100
  enable_encryption : Bool := true
  batch_size : Nat := 10
  batch_timeout_ms : Nat := 50
  log_events : Bool := true
  enable_metrics : Bool := true
deriving DecidableEq, Repr

/-- `RelayMetrics` counters.  `avg_latency_ms` is a floating-point rolling
average and is not modelled; every claim is about the integer counters. -/
structure RelayMetrics where
  events_received : Nat := 0
  events_forwarded : Nat := 0
  events_failed : Nat := 0
  bytes_sent : Nat := 0
  bytes_received : Nat := 0
deriving DecidableEq, Repr

/-- The mutable state of one `InputRelay`: the bounded `queue.Queue` (FIFO,
front at the head), the batch buffer, the running flag and the metrics. -/
structure InputRelay where
  config : RelayConfig
  event_queue : List InputEvent
  batch_buffer : List InputEvent
  is_running : Bool
  metrics : RelayMetrics
deriving DecidableEq

/-- `InputRelay.__init__` followed by a successful `start()`: empty queue
and batch, zero metrics, running flag set. -/
def InputRelay.started (config : RelayConfig) : InputRelay :=
  { config := config, event_queue := [], batch_buffer := [], is_running := true
    metrics := {} }

/-- `queue.Queue(maxsize)` is full iff `0 < maxsize <= qsize()` (a maxsize
of 0 or less means unbounded). -/
def InputRelay.queueFull (r : InputRelay) : Bool :=
  0 < r.config.max_queue_size && r.config.max_queue_size ≤ r.event_queue.length

/-- `InputRelay.queue_event`: returns `False` untouched when not running;
otherwise `put_nowait` either appends (then `events_received += 1`, `True`)
or raises `queue.Full` (then `events_failed += 1`, `False`). -/
def InputRelay.queue_event (r : InputRelay) (e : InputEvent) : Bool × InputRelay :=
  if !r.is_running then (false, r)
  else if r.queueFull then
    (false, { r with metrics := { r.metrics with events_failed := r.metrics.events_failed + 1 } })
  else
    (true, { r with event_queue := r.event_queue ++ [e]
                    metrics := { r.metrics with
                      events_received := r.metrics.events_received + 1 } })

/-- A sequence of `queue_event` calls, with their results in call order. -/
def InputRelay.queue_events : InputRelay → List InputEvent → List Bool × InputRelay
  | r, [] => ([], r)
  | r, e :: es =>
    let p := r.queue_event e
    let q := p.2.queue_events es
    (p.1 :: q.1, q.2)

/-- Number of required positional parameters of
`ConnectionHandler.send_message(self, msg_type, data)`
(src/network/connection.py:232). -/
def send_message_param_count : Nat := 2

/-- Number of positional arguments in the call
`self.connection.send_message({"type": "INPUT_EVENT", "payload": event_dict})`
(src/relay/input_relay.py:265). -/
def forward_call_arg_count : Nat := 1

/-- Whether one attempt of `_forward_event`'s retry loop raises.  CPython
binds the call's 1 positional argument against the 2 required parameters
of `send_message` and raises `TypeError: ... missing 1 required positional
argument: 'data'` before any frame is written, so every attempt lands in
the `except Exception` handler. -/
def forward_attempt_raises : Bool :=
  forward_call_arg_count != send_message_param_count

/-- `InputRelay._forward_event`: every one of the `max_retries` attempts
raises (see `forward_attempt_raises`), so the loop falls through and the
function returns `False`; the post-send bookkeeping (`bytes_sent`,
latency) after the call site never executes in the shipped code, which is
why the unreachable success branch leaves the state untouched. -/
def InputRelay.forward_event (r : InputRelay) (_e : InputEvent) : Bool × InputRelay :=
  if forward_attempt_raises then (false, r) else (true, r)

/-- The per-event loop of `_flush_batch` over `events_to_send`: a
successful forward bumps `events_forwarded`, a failed one bumps
`events_failed`. -/
def InputRelay.flushEvents : InputRelay → List InputEvent → InputRelay
  | r, [] => r
  | r, e :: es =>
    let (ok, r') := r.forward_event e
    let r'' :=
      if ok then
        { r' with metrics := { r'.metrics with
            events_forwarded := r'.metrics.events_forwarded + 1 } }
      else
        { r' with metrics := { r'.metrics with
            events_failed := r'.metrics.events_failed + 1 } }
    r''.flushEvents es

/-- `InputRelay._flush_batch`: copy and clear the batch buffer, then
forward each batched event individually. -/
def InputRelay.flush_batch (r : InputRelay) : InputRelay :=
  InputRelay.flushEvents { r with batch_buffer := [] } r.batch_buffer

/-- `_relay_loop` run until the queue is drained: each iteration dequeues
one event into the batch and flushes once the batch reaches
`batch_size`; when the queue is empty the `queue.Empty` timeout flushes
whatever remains.  `fuel` bounds the iterations (the loop is a `while`;
any fuel of at least the queue length drains it). -/
def InputRelay.drainLoop : Nat → InputRelay → InputRelay
  | 0, r => r.flush_batch
  | fuel + 1, r =>
    match r.event_queue with
    | [] => r.flush_batch
    | e :: rest =>
      let r' := { r with event_queue := rest, batch_buffer := r.batch_buffer ++ [e] }
      let r'' := if r'.config.batch_size ≤ r'.batch_buffer.length then r'.flush_batch else r'
      InputRelay.drainLoop fuel r''

/-! ## src/network/discovery.py

`DiscoveryService` state and its reactions to mDNS service-state changes
and the periodic offline sweep.  The zeroconf callbacks and the sweep
thread are serialised by `self._lock`, so the service is modelled as a
sequential state machine over an observation list.  Listener
notifications are recorded as an event log `(event_type, device)`; one
entry stands for the isolated invocation of every registered listener. -/

/-- `dict[key]` lookup on an association list (first match). -/
def lookupId : List (String × Device) → String → Option Device
  | [], _ => none
  | (k, d) :: rest, key => if k == key then some d else lookupId rest key

/-- `dict[key] = value`: replace in place if the key exists, else append
(Python dicts keep first-insertion order). -/
def dictSet : List (String × Device) → String → Device → List (String × Device)
  | [], key, v => [(key, v)]
  | (k, d) :: rest, key, v =>
    if k == key then (k, v) :: rest else (k, d) :: dictSet rest key v

/-- `del dict[key]`: drop the (unique) entry for the key. -/
def dictDrop : List (String × Device) → String → List (String × Device)
  | [], _ => []
  | (k, d) :: rest, key => if k == key then rest else (k, d) :: dictDrop rest key

/-- `DeviceRepository.update`: SQL `UPDATE ... WHERE id = ?` — replaces the
row if present, does nothing otherwise. -/
def repoUpdate : List (String × Device) → String → Device → List (String × Device)
  | [], _, _ => []
  | (k, d) :: rest, key, v =>
    if k == key then (k, v) :: rest else (k, d) :: repoUpdate rest key v

/-- `DeviceRepository.create`: SQL `INSERT` — appends a new row (only ever
called after `read` returned nothing). -/
def repoCreate (repo : List (String × Device)) (key : String) (v : Device) :
    List (String × Device) :=
  repo ++ [(key, v)]

/-- The part of a zeroconf `ServiceInfo` the handler reads: TXT properties
(each `none` when the key is absent), parsed addresses, and the port. -/
structure ServiceInfo where
  props_device_id : Option String
  props_os : Option String
  props_version : Option String
  props_role : Option String
  addresses : List String
  port : Int
deriving DecidableEq

/-- One externally triggered step: a zeroconf Added/Removed/Updated
callback (`info` is the `get_service_info` result, `none` when it could
not be fetched) or one iteration of the offline-detection loop at wall
time `now` (whole seconds). -/
inductive DiscoveryObs where
  | added (name : String) (info : Option ServiceInfo) (now : Int)
  | removed (name : String)
  | updated (name : String) (info : Option ServiceInfo) (now : Int)
  | sweep (now : Int)
deriving DecidableEq

/-- The state owned by one `DiscoveryService` (plus its repository's
table and the listener-notification log). -/
structure DiscoveryState where
  local_device : Device
  discovered_devices : List (String × Device)
  device_repo : List (String × Device)
  events : List (String × Device)
deriving DecidableEq

/-- `name.split("._kms")[0] if "._kms" in name else name`: the characters
before the first occurrence of the marker, if any. -/
def takeUntilMarker (marker : List Char) : List Char → Option (List Char)
  | [] => none
  | c :: cs =>
    if marker.isPrefixOf (c :: cs) then some []
    else (takeUntilMarker marker cs).map (fun pre => c :: pre)

/-- Service-instance name to device name. -/
def serviceDeviceName (name : String) : String :=
  match takeUntilMarker "._kms".toList name.toList with
  | some pre => String.mk pre
  | none => name

/-- `DeviceOS[os_name.upper()]` with `except (KeyError, ValueError)`
falling back to `WINDOWS`.  Enum subscription is by member *name*
(`WINDOWS`/`MACOS`), so the advertised value `Darwin` does not resolve
and degrades to the default. -/
def parseDeviceOS (os_name : String) : DeviceOS :=
  if os_name.toUpper == "WINDOWS" then .WINDOWS
  else if os_name.toUpper == "MACOS" then .MACOS
  else .WINDOWS

/-- `DeviceRole[role.upper()]` with fallback to `UNASSIGNED`. -/
def parseDeviceRole (role : String) : DeviceRole :=
  if role.toUpper == "MASTER" then .MASTER
  else if role.toUpper == "CLIENT" then .CLIENT
  else if role.toUpper == "UNASSIGNED" then .UNASSIGNED
  else .UNASSIGNED

/-- `DiscoveryService._on_device_added`.  In order: bail out when
`get_service_info` returned nothing; read the TXT properties with their
defaults; drop the observation when the advertised `device_id` equals th
local device's id; build the `Device` (whose `__post_init__` may raise,
caught by the surrounding `try`, discarding the observation); then either
update the existing repository row or create a new one, store the device
in `discovered_devices`, and notify listeners with `device_added`. -/
def on_device_added (s : DiscoveryState) (name : String) (info : Option ServiceInfo)
    (now : Int) : DiscoveryState :=
  match info with
  | none => s
  | some info =>
    let device_id := info.props_device_id.getD ""
    let os_name := info.props_os.getD "Windows"
    let version := info.props_version.getD "1.0.0"
    let role := info.props_role.getD "UNASSIGNED"
    let ip_address : Option String := info.addresses.head?
    if device_id == s.local_device.id then s
    else
      match Device.make
          { id := device_id
            mac_address := ""
            name := serviceDeviceName name
            os := parseDeviceOS os_name
            role := parseDeviceRole role
            ip_address := ip_address
            port := info.port
            version := version
            is_registered := true
            created_at := now
            last_seen := now } with
      | none => s
      | some device =>
        match lookupId s.device_repo device_id with
        | some existing =>
          let updated := { existing with
            ip_address := ip_address, is_registered := true, last_seen := now }
          { s with
              device_repo := repoUpdate s.device_repo device_id updated
              discovered_devices := dictSet s.discovered_devices device_id updated
              events := s.events ++ [("device_added", updated)] }
        | none =>
          { s with
              device_repo := repoCreate s.device_repo device_id device
              discovered_devices := dictSet s.discovered_devices device_id device
              events := s.events ++ [("device_added", device)] }

/-- First entry of `discovered_devices` whose device name matches (the
handler breaks after the first hit). -/
def findByName : List (String × Device) → String → Option (String × Device)
  | [], _ => none
  | (k, d) :: rest, n => if d.name == n then some (k, d) else findByName rest n

/-- `DiscoveryService._on_device_removed`: look the device up by *name*,
remove it from `discovered_devices`, clear its registered flag in the
repository, and notify listeners with `device_removed`. -/
def on_device_removed (s : DiscoveryState) (name : String) : DiscoveryState :=
  match findByName s.discovered_devices (serviceDeviceName name) with
  | none => s
  | some (device_id, device) =>
    let updated := { device with is_registered := false }
    { s with
        discovered_devices := dictDrop s.discovered_devices device_id
        device_repo := repoUpdate s.device_repo device_id updated
        events := s.events ++ [("device_removed", updated)] }

/-- Offline condition of the sweep: silent for strictly more than
`OFFLINE_THRESHOLD = 60` seconds while still registered. -/
def offlineCond (now : Int) (d : Device) : Bool :=
  decide (now - d.last_seen > 60) && d.is_registered

/-- `device.is_registered = False` as the sweep applies it. -/
def markOffline (d : Device) : Device :=
  { d with is_registered := false }

/-- One pass of the sweep's `for` loop over the entries: each silent
registered device is marked offline in place, and the marked devices are
collected (in iteration order) for listener notification. -/
def sweepEntries (now : Int) :
    List (String × Device) → List (String × Device) × List Device
  | [] => ([], [])
  | (k, d) :: rest =>
    let p := sweepEntries now rest
    if offlineCond now d then ((k, markOffline d) :: p.1, markOffline d :: p.2)
    else ((k, d) :: p.1, p.2)

/-- One iteration of `_start_offline_detection`'s loop at time `now`:
mark silent devices, push the repository updates, notify listeners with
`device_offline`. -/
def check_offline (now : Int) (s : DiscoveryState) : DiscoveryState :=
  let p := sweepEntries now s.discovered_devices
  { s with
      discovered_devices := p.1
      device_repo := p.2.foldl (fun repo d => repoUpdate repo d.id d) s.device_repo
      events := s.events ++ p.2.map (fun d => ("device_offline", d)) }

/-- Dispatch one observation (`_on_device_updated` is remove-then-add). -/
def discovery_step (s : DiscoveryState) : DiscoveryObs → DiscoveryState
  | .added name info now => on_device_added s name info now
  | .removed name => on_device_removed s name
  | .updated name info now => on_device_added (on_device_removed s name) name info now
  | .sweep now => check_offline now s

/-- Run a sequence of observations. -/
def discovery_run (s : DiscoveryState) : List DiscoveryObs → DiscoveryState
  | [] => s
  | o :: os => discovery_run (discovery_step s o) os

/-- `DiscoveryService.__init__` + `start()`: empty discovered set, local
device marked registered and written back to the repository. -/
def discovery_start (localDev : Device) (repo0 : List (String × Device)) : DiscoveryState :=
  { local_device := { localDev with is_registered := true }
    discovered_devices := []
    device_repo := repoUpdate repo0 localDev.id { localDev with is_registered := true }
    events := [] }

/-- Repository/dict well-formedness: every row's device carries the row's
key as its id. -/
def WellKeyed (l : List (String × Device)) : Prop :=
  ∀ kd ∈ l, (kd : String × Device).2.id = kd.1

/-- Count of `device_offline` notifications for a given device id. -/
def offlineEventCount (id : String) (evs : List (String × Device)) : Nat :=
  (evs.filter (fun ev => ev.1 == "device_offline" && ev.2.id == id)).length

/-- Reachability invariant of a `DiscoveryService` with local id `locId`:
the repository is well-keyed, every discovered entry is well-keyed with a
key different from `locId`, and no recorded notification ever carried a
device with id `locId`. -/
def DiscInv (locId : String) (s : DiscoveryState) : Prop :=
  s.local_device.id = locId ∧
  WellKeyed s.device_repo ∧
  (∀ kd ∈ s.discovered_devices,
    (kd : String × Device).2.id = kd.1 ∧ kd.1 ≠ locId) ∧
  (∀ ev ∈ s.events, (ev : String × Device).2.id ≠ locId)

/-! ## Concrete values used by witnesses -/

/-- A valid UUID literal reused by concrete witnesses. -/
def uuidA : String := "1f2e3d4c-5b6a-4798-8190-a1b2c3d4e5f6"

/-- A second valid UUID literal. -/
def uuidB : String := "0a1b2c3d-4e5f-4601-b234-56789abcdef0"

/-- A concrete device with a well-known low port (80). -/
def deviceOnPort80 : Device :=
  { id := uuidA
    mac_address := "AA:BB:CC:DD:EE:FF"
    name := "Alpha"
    os := .WINDOWS
    role := .MASTER
    ip_address := none
    port := 80
    version := "1.0.0"
    is_registered := false
    created_at := 0
    last_seen := 0 }

/-- A concrete peer advertisement used by witnesses. -/
def infoB : ServiceInfo :=
  { props_device_id := some uuidB
    props_os := some "Darwin"
    props_version := some "1.0.0"
    props_role := some "CLIENT"
    addresses := ["192.168.1.7"]
    port := 19999 }

/-- A concrete registered peer, last seen at time 0, used by witnesses. -/
def devB : Device :=
  { deviceOnPort80 with id := uuidB, name := "Beta", is_registered := true, last_seen := 0 }

/-- A concrete discovery state with `devB` as the only discovered peer. -/
def discStateB : DiscoveryState :=
  { local_device := { deviceOnPort80 with is_registered := true }
    discovered_devices := [(uuidB, devB)]
    device_repo := [(uuidB, devB)]
    events := [] }

/-- A well-formed KEY_PRESS payload used by witnesses. -/
def keyPayloadA : JMembers :=
  .cons "keycode" (.str "A") (.cons "modifiers" (.arr .nil) .nil)

/-- A concrete KEY_PRESS event with valid UUIDs and payload. -/
def eventA : InputEvent :=
  { id := uuidA
    event_type := .KEY_PRESS
    source_device_id := uuidA
    target_device_id := uuidB
    payload := keyPayloadA
    timestamp :=
      { year := 2024, month := 3, day := 9, hour := 21, minute := 5, second := 30
        microsecond := 123456, tzOffsetMinutes := some 0 }
    is_encrypted := true }

end KMS

namespace KMS

/-- C2, counterexample.  The claim requires construction to fail for any
port outside [1024, 65535]; the code accepts port 80 (the executed check
in `validate_port` is `1 <= port <= 65535`), so a `Device` with port 80
is constructed successfully even though 80 < 1024. -/
theorem device_port80_accepted :
    Device.make deviceOnPort80 = some deviceOnPort80 ∧ deviceOnPort80.port < 1024 := by
  constructor
  · decide
  · decide

/-- C2 (amended): every `Device` accepted at construction has a hardware
address that is empty or in the validator's hex-pair form, a port in
[1, 65535] (not [1024, 65535]: `validate_port` checks `1 <= port <= 65535`),
and a name of length at most 50; and a `Device` violating any of these is
rejected at construction (`ValueError` from `__post_init__`, modelled as
`none`). -/
theorem device_make_spec (d e : Device) :
    (Device.make d = some e →
      (e.mac_address.isEmpty = true ∨ validate_mac_address e.mac_address = true) ∧
      1 ≤ e.port ∧ e.port ≤ 65535 ∧ e.name.length ≤ 50) ∧
    ((¬ (d.mac_address.isEmpty = true ∨ validate_mac_address d.mac_address = true) ∨
      ¬ (1 ≤ d.port ∧ d.port ≤ 65535) ∨ 50 < d.name.length) →
      Device.make d = none) := by
  have hval : d.validate = true →
      (d.mac_address.isEmpty = true ∨ validate_mac_address d.mac_address = true) ∧
      1 ≤ d.port ∧ d.port ≤ 65535 ∧ d.name.length ≤ 50 := by
    intro hv
    simp only [Device.validate, Bool.and_eq_true, Bool.or_eq_true] at hv
    obtain ⟨⟨⟨⟨⟨-, hmac⟩, hname⟩, hport⟩, -⟩, -⟩ := hv
    refine ⟨hmac, ?_, ?_, ?_⟩
    · simp only [validate_port, Bool.and_eq_true, decide_eq_true_eq] at hport
      exact hport.1
    · simp only [validate_port, Bool.and_eq_true, decide_eq_true_eq] at hport
      exact hport.2
    · simp only [validate_device_name] at hname
      split at hname
      · exact absurd hname (by simp)
      · split at hname
        · exact absurd hname (by simp)
        · omega
  constructor
  · intro h
    simp only [Device.make] at h
    split at h
    · cases h
      exact hval (by assumption)
    · exact absurd h (by simp)
  · intro hviol
    simp only [Device.make]
    split
    · rename_i hv
      obtain ⟨hmac, hp1, hp2, hn⟩ := hval hv
      rcases hviol with h | h | h
      · exact absurd hmac h
      · exact absurd ⟨hp1, hp2⟩ h
      · omega
    · rfl

/-- C2 witness: `device_make_spec` applied at a concrete device (valid UUID,
valid MAC, short name, port 19999). -/
theorem device_make_spec_witness :
    (Device.make { deviceOnPort80 with port := 19999 }
        = some { deviceOnPort80 with port := 19999 } →
      (({ deviceOnPort80 with port := 19999 } : Device).mac_address.isEmpty = true ∨
        validate_mac_address ({ deviceOnPort80 with port := 19999 } : Device).mac_address = true) ∧
      1 ≤ ({ deviceOnPort80 with port := 19999 } : Device).port ∧
      ({ deviceOnPort80 with port := 19999 } : Device).port ≤ 65535 ∧
      ({ deviceOnPort80 with port := 19999 } : Device).name.length ≤ 50) ∧
    (Device.make { deviceOnPort80 with port := 19999 } = some { deviceOnPort80 with port := 19999 }) :=
  ⟨(device_make_spec { deviceOnPort80 with port := 19999 }
      { deviceOnPort80 with port := 19999 }).1,
   by decide⟩

/-- C9: an `InputEvent` whose payload does not match its kind's schema
fails at construction, and every successfully constructed event has a
payload matching its kind. -/
theorem input_event_payload_validated (e e' : InputEvent) :
    (InputEvent.make e = some e' →
      InputEvent.payloadMatches e'.event_type e'.payload = true) ∧
    (InputEvent.payloadMatches e.event_type e.payload = false →
      InputEvent.make e = none) := by
  constructor
  · intro h
    simp only [InputEvent.make] at h
    split at h
    · cases h
      rename_i hv
      simp only [InputEvent.validate, Bool.and_eq_true] at hv
      exact hv.2
    · exact absurd h (by simp)
  · intro hbad
    simp only [InputEvent.make, InputEvent.validate, hbad, Bool.and_false,
      Bool.false_eq_true, if_false]

/-- C10: `queue_event` on a relay that is not running returns `False` and
leaves the state — queue and all metric counters included — unchanged. -/
theorem queue_event_not_running (r : InputRelay) (e : InputEvent)
    (h : r.is_running = false) : r.queue_event e = (false, r) := by
  simp [InputRelay.queue_event, h]

/-- C10 witness: `queue_event_not_running` on a freshly initialized (never
started) relay. -/
theorem queue_event_not_running_witness :
    ({ InputRelay.started {} with is_running := false } : InputRelay).queue_event eventA
      = (false, { InputRelay.started {} with is_running := false }) :=
  queue_event_not_running { InputRelay.started {} with is_running := false } eventA rfl

/-- Counting lemma for a burst of `queue_event` calls with no concurrent
draining: with `F` free slots, the first `min n F` calls succeed and the
rest fail, with `events_received`/`events_failed` advanced accordingly. -/
theorem queue_events_counts (es : List InputEvent) (r : InputRelay)
    (hrun : r.is_running = true)
    (hq : r.event_queue.length ≤ r.config.max_queue_size)
    (hcap : 0 < r.config.max_queue_size) :
    (r.queue_events es).1
      = List.replicate (min es.length (r.config.max_queue_size - r.event_queue.length)) true
        ++ List.replicate (es.length - (r.config.max_queue_size - r.event_queue.length)) false
    ∧ (r.queue_events es).2.metrics.events_failed
      = r.metrics.events_failed
        + (es.length - (r.config.max_queue_size - r.event_queue.length))
    ∧ (r.queue_events es).2.metrics.events_received
      = r.metrics.events_received
        + min es.length (r.config.max_queue_size - r.event_queue.length) := by
  induction es generalizing r with
  | nil => simp [InputRelay.queue_events]
  | cons e es ih =>
    have hunfold : r.queue_events (e :: es)
        = ((r.queue_event e).1 :: ((r.queue_event e).2.queue_events es).1,
           ((r.queue_event e).2.queue_events es).2) := rfl
    by_cases hfull : r.queueFull = true
    · have hF : r.config.max_queue_size - r.event_queue.length = 0 := by
        simp only [InputRelay.queueFull, Bool.and_eq_true, decide_eq_true_eq] at hfull
        omega
      have hstep : r.queue_event e = (false,
          { r with metrics :=
              { r.metrics with events_failed := r.metrics.events_failed + 1 } }) := by
        simp [InputRelay.queue_event, hrun, hfull]
      obtain ⟨h1, h2, h3⟩ := ih
        { r with metrics := { r.metrics with events_failed := r.metrics.events_failed + 1 } }
        hrun hq hcap
      rw [hunfold, hstep]
      refine ⟨?_, ?_, ?_⟩
      · simp only [h1, hF, List.length_cons]
        simp [List.replicate_succ]
      · simp only [h2, hF, List.length_cons]
        omega
      · simp only [h3, hF, List.length_cons]
        omega
    · have hlt : r.event_queue.length < r.config.max_queue_size := by
        simp only [InputRelay.queueFull, Bool.and_eq_true, decide_eq_true_eq,
          not_and, not_le] at hfull
        omega
      have hfull' : r.queueFull = false := by
        cases h : r.queueFull
        · rfl
        · exact absurd h hfull
      have hstep : r.queue_event e = (true,
          { r with event_queue := r.event_queue ++ [e]
                   metrics := { r.metrics with
                     events_received := r.metrics.events_received + 1 } }) := by
        simp [InputRelay.queue_event, hrun, hfull']
      obtain ⟨h1, h2, h3⟩ := ih
        { r with event_queue := r.event_queue ++ [e]
                 metrics := { r.metrics with
                   events_received := r.metrics.events_received + 1 } }
        hrun (by simpa using hlt) hcap
      simp only [List.length_append, List.length_cons, List.length_nil] at h1 h2 h3
      rw [hunfold, hstep]
      refine ⟨?_, ?_, ?_⟩
      · simp only [h1, List.length_cons]
        have hmin : min (es.length + 1) (r.config.max_queue_size - r.event_queue.length)
            = min es.length (r.config.max_queue_size - (r.event_queue.length + 1)) + 1 := by
          omega
        have hsub : es.length + 1 - (r.config.max_queue_size - r.event_queue.length)
            = es.length - (r.config.max_queue_size - (r.event_queue.length + 1)) := by
          omega
        rw [hmin, hsub, List.replicate_succ]
        simp
      · simp only [h2, List.length_cons]
        omega
      · simp only [h3, List.length_cons]
        omega

/-- C5: a started relay with queue capacity `C` and no draining accepts
exactly the first `C` of `C + M` enqueue attempts; the last `M` return
`False` and `events_failed` ends at exactly `M` (each rejection increments
it), while `events_received` ends at `C`. -/
theorem relay_queue_backpressure (cfg : RelayConfig) (es : List InputEvent) (M : Nat)
    (hcap : 0 < cfg.max_queue_size) (hM : 0 < M)
    (hlen : es.length = cfg.max_queue_size + M) :
    ((InputRelay.started cfg).queue_events es).1
      = List.replicate cfg.max_queue_size true ++ List.replicate M false ∧
    ((InputRelay.started cfg).queue_events es).2.metrics.events_failed = M ∧
    ((InputRelay.started cfg).queue_events es).2.metrics.events_received
      = cfg.max_queue_size := by
  obtain ⟨h1, h2, h3⟩ := queue_events_counts es (InputRelay.started cfg) rfl
    (by simp [InputRelay.started]) hcap
  refine ⟨?_, ?_, ?_⟩
  · rw [h1]
    simp only [InputRelay.started, List.length_nil, Nat.sub_zero]
    have e1 : min es.length cfg.max_queue_size = cfg.max_queue_size := by omega
    have e2 : es.length - cfg.max_queue_size = M := by omega
    rw [e1, e2]
  · rw [h2]
    simp only [InputRelay.started, List.length_nil, Nat.sub_zero]
    omega
  · rw [h3]
    simp only [InputRelay.started, List.length_nil, Nat.sub_zero]
    omega

/-- C5 witness: `relay_queue_backpressure` at capacity 2 with 3 events. -/
theorem relay_queue_backpressure_witness :
    ((InputRelay.started { max_queue_size := 2 }).queue_events [eventA, eventA, eventA]).1
      = List.replicate 2 true ++ List.replicate 1 false ∧
    ((InputRelay.started { max_queue_size := 2 }).queue_events
        [eventA, eventA, eventA]).2.metrics.events_failed = 1 ∧
    ((InputRelay.started { max_queue_size := 2 }).queue_events
        [eventA, eventA, eventA]).2.metrics.events_received = 2 :=
  relay_queue_backpressure { max_queue_size := 2 } [eventA, eventA, eventA] 1
    (by decide) (by decide) (by decide)

/-- C1: the claim fails on the shipped code, and the divergence is a code
bug, not a spec overstatement.  `_forward_event` invokes
`ConnectionHandler.send_message` with one positional dict argument while
the method's signature requires `(msg_type, data)`, so every attempt
raises `TypeError` and no event is ever forwarded: the first conjunct
shows every forward returns `False`; the rest evaluates the failing input
(2 events queued, batch size 1, 3 retries, a live connection): after the
drain, `events_forwarded = 0` and `events_failed = 2`, where the claim
requires `events_forwarded = 2`. -/
theorem relay_forward_arity_mismatch :
    (∀ (r : InputRelay) (e : InputEvent), (r.forward_event e).1 = false) ∧
    ((InputRelay.started { batch_size := 1 }).queue_events [eventA, eventA]).1
      = [true, true] ∧
    ((((InputRelay.started { batch_size := 1 }).queue_events
        [eventA, eventA]).2.drainLoop 4).metrics.events_forwarded = 0 ∧
     (((InputRelay.started { batch_size := 1 }).queue_events
        [eventA, eventA]).2.drainLoop 4).metrics.events_failed = 2 ∧
     (((InputRelay.started { batch_size := 1 }).queue_events
        [eventA, eventA]).2.drainLoop 4).metrics.events_received = 2) := by
  refine ⟨fun r e => rfl, by decide, by decide, by decide, by decide⟩

/-! ### Association-list and sweep helper lemmas -/

theorem lookupId_mem {l : List (String × Device)} {key : String} {d : Device}
    (h : lookupId l key = some d) : (key, d) ∈ l := by
  induction l with
  | nil => simp [lookupId] at h
  | cons kd rest ih =>
    obtain ⟨k, v⟩ := kd
    simp only [lookupId] at h
    by_cases hk : (k == key) = true
    · rw [if_pos hk] at h
      cases h
      have hkk : k = key := by simpa using hk
      subst hkk
      exact List.mem_cons_self ..
    · rw [if_neg hk] at h
      exact List.mem_cons_of_mem _ (ih h)

theorem mem_dictSet {l : List (String × Device)} {key : String} {v : Device}
    {x : String × Device} (hx : x ∈ dictSet l key v) : x = (key, v) ∨ x ∈ l := by
  induction l with
  | nil => simpa [dictSet] using hx
  | cons kd rest ih =>
    obtain ⟨k, d⟩ := kd
    simp only [dictSet] at hx
    by_cases hk : (k == key) = true
    · rw [if_pos hk] at hx
      rcases List.mem_cons.mp hx with h1 | h1
      · left
        have hkk : k = key := by simpa using hk
        rw [h1, hkk]
      · exact Or.inr (List.mem_cons_of_mem _ h1)
    · rw [if_neg hk] at hx
      rcases List.mem_cons.mp hx with h1 | h1
      · right
        rw [h1]
        exact List.mem_cons_self ..
      · rcases ih h1 with h2 | h2
        · exact Or.inl h2
        · exact Or.inr (List.mem_cons_of_mem _ h2)

theorem mem_repoUpdate {l : List (String × Device)} {key : String} {v : Device}
    {x : String × Device} (hx : x ∈ repoUpdate l key v) : x = (key, v) ∨ x ∈ l := by
  induction l with
  | nil => simp [repoUpdate] at hx
  | cons kd rest ih =>
    obtain ⟨k, d⟩ := kd
    simp only [repoUpdate] at hx
    by_cases hk : (k == key) = true
    · rw [if_pos hk] at hx
      rcases List.mem_cons.mp hx with h1 | h1
      · left
        have hkk : k = key := by simpa using hk
        rw [h1, hkk]
      · exact Or.inr (List.mem_cons_of_mem _ h1)
    · rw [if_neg hk] at hx
      rcases List.mem_cons.mp hx with h1 | h1
      · right
        rw [h1]
        exact List.mem_cons_self ..
      · rcases ih h1 with h2 | h2
        · exact Or.inl h2
        · exact Or.inr (List.mem_cons_of_mem _ h2)

theorem mem_dictDrop {l : List (String × Device)} {key : String}
    {x : String × Device} (hx : x ∈ dictDrop l key) : x ∈ l := by
  induction l with
  | nil => simp [dictDrop] at hx
  | cons kd rest ih =>
    obtain ⟨k, d⟩ := kd
    simp only [dictDrop] at hx
    by_cases hk : (k == key) = true
    · rw [if_pos hk] at hx
      exact List.mem_cons_of_mem _ hx
    · rw [if_neg hk] at hx
      rcases List.mem_cons.mp hx with h1 | h1
      · rw [h1]
        exact List.mem_cons_self ..
      · exact List.mem_cons_of_mem _ (ih h1)

theorem mem_repoCreate {l : List (String × Device)} {key : String} {v : Device}
    {x : String × Device} (hx : x ∈ repoCreate l key v) : x = (key, v) ∨ x ∈ l := by
  rcases List.mem_append.mp hx with h1 | h1
  · exact Or.inr h1
  · exact Or.inl (List.mem_singleton.mp h1)

theorem findByName_mem {l : List (String × Device)} {n : String}
    {kd : String × Device} (h : findByName l n = some kd) : kd ∈ l := by
  induction l with
  | nil => simp [findByName] at h
  | cons kd' rest ih =>
    obtain ⟨k, d⟩ := kd'
    simp only [findByName] at h
    by_cases hn : (d.name == n) = true
    · rw [if_pos hn] at h
      cases h
      exact List.mem_cons_self ..
    · rw [if_neg hn] at h
      exact List.mem_cons_of_mem _ (ih h)

theorem sweepEntries_fst_mem {now : Int} {l : List (String × Device)}
    {x : String × Device} (hx : x ∈ (sweepEntries now l).1) :
    ∃ kd ∈ l, x = kd ∨ x = ((kd : String × Device).1, markOffline kd.2) := by
  induction l with
  | nil => simp [sweepEntries] at hx
  | cons kd rest ih =>
    obtain ⟨k, d⟩ := kd
    simp only [sweepEntries] at hx
    by_cases hc : offlineCond now d = true
    · rw [if_pos hc] at hx
      rcases List.mem_cons.mp hx with h1 | h1
      · exact ⟨(k, d), List.mem_cons_self .., Or.inr h1⟩
      · obtain ⟨kd', hmem, hor⟩ := ih h1
        exact ⟨kd', List.mem_cons_of_mem _ hmem, hor⟩
    · rw [if_neg hc] at hx
      rcases List.mem_cons.mp hx with h1 | h1
      · exact ⟨(k, d), List.mem_cons_self .., Or.inl h1⟩
      · obtain ⟨kd', hmem, hor⟩ := ih h1
        exact ⟨kd', List.mem_cons_of_mem _ hmem, hor⟩

theorem sweepEntries_snd_mem {now : Int} {l : List (String × Device)}
    {d' : Device} (hd : d' ∈ (sweepEntries now l).2) :
    ∃ kd ∈ l, d' = markOffline (kd : String × Device).2 := by
  induction l with
  | nil => simp [sweepEntries] at hd
  | cons kd rest ih =>
    obtain ⟨k, d⟩ := kd
    simp only [sweepEntries] at hd
    by_cases hc : offlineCond now d = true
    · rw [if_pos hc] at hd
      rcases List.mem_cons.mp hd with h1 | h1
      · exact ⟨(k, d), List.mem_cons_self .., h1⟩
      · obtain ⟨kd', hmem, he⟩ := ih h1
        exact ⟨kd', List.mem_cons_of_mem _ hmem, he⟩
    · rw [if_neg hc] at hd
      obtain ⟨kd', hmem, he⟩ := ih hd
      exact ⟨kd', List.mem_cons_of_mem _ hmem, he⟩

theorem Device.make_some {d e : Device} (h : Device.make d = some e) : e = d := by
  simp only [Device.make] at h
  split at h
  · cases h
    rfl
  · exact absurd h (by simp)

/-! ### C8: the service never reports its own identity -/

theorem on_device_added_inv (locId : String) (s : DiscoveryState) (name : String)
    (info : Option ServiceInfo) (now : Int) (h : DiscInv locId s) :
    DiscInv locId (on_device_added s name info now) := by
  obtain ⟨hloc, hrepo, hdisc, hev⟩ := h
  cases info with
  | none => exact ⟨hloc, hrepo, hdisc, hev⟩
  | some info =>
    simp only [on_device_added]
    by_cases hid : (info.props_device_id.getD "" == s.local_device.id) = true
    · rw [if_pos hid]
      exact ⟨hloc, hrepo, hdisc, hev⟩
    · rw [if_neg hid]
      have hne : info.props_device_id.getD "" ≠ locId := by
        rw [← hloc]
        simpa using hid
      split
      · exact ⟨hloc, hrepo, hdisc, hev⟩
      · rename_i device hmake
        have hdev : device.id = info.props_device_id.getD "" := by
          rw [Device.make_some hmake]
        split
        · rename_i existing hlook
          have hex : existing.id = info.props_device_id.getD "" :=
            hrepo _ (lookupId_mem hlook)
          refine ⟨hloc, ?_, ?_, ?_⟩
          · intro kd hkd
            rcases mem_repoUpdate hkd with h1 | h1
            · rw [h1]
              exact hex
            · exact hrepo _ h1
          · intro kd hkd
            rcases mem_dictSet hkd with h1 | h1
            · rw [h1]
              exact ⟨hex, hne⟩
            · exact hdisc _ h1
          · intro ev hevm
            rcases List.mem_append.mp hevm with h1 | h1
            · exact hev _ h1
            · rw [List.mem_singleton.mp h1]
              rw [show ((("device_added" : String), { existing with
                    ip_address := info.addresses.head?, is_registered := true,
                    last_seen := now }) : String × Device).2.id = existing.id from rfl, hex]
              exact hne
        · rename_i hlook
          refine ⟨hloc, ?_, ?_, ?_⟩
          · intro kd hkd
            rcases mem_repoCreate hkd with h1 | h1
            · rw [h1]
              exact hdev
            · exact hrepo _ h1
          · intro kd hkd
            rcases mem_dictSet hkd with h1 | h1
            · rw [h1]
              exact ⟨hdev, hne⟩
            · exact hdisc _ h1
          · intro ev hevm
            rcases List.mem_append.mp hevm with h1 | h1
            · exact hev _ h1
            · rw [List.mem_singleton.mp h1]
              simpa [hdev] using hne

theorem on_device_removed_inv (locId : String) (s : DiscoveryState) (name : String)
    (h : DiscInv locId s) : DiscInv locId (on_device_removed s name) := by
  obtain ⟨hloc, hrepo, hdisc, hev⟩ := h
  simp only [on_device_removed]
  split
  · exact ⟨hloc, hrepo, hdisc, hev⟩
  · rename_i device_id device hfind
    obtain ⟨hdid, hdne⟩ := hdisc _ (findByName_mem hfind)
    refine ⟨hloc, ?_, ?_, ?_⟩
    · intro kd hkd
      rcases mem_repoUpdate hkd with h1 | h1
      · rw [h1]
        exact hdid
      · exact hrepo _ h1
    · intro kd hkd
      exact hdisc _ (mem_dictDrop hkd)
    · intro ev hevm
      rcases List.mem_append.mp hevm with h1 | h1
      · exact hev _ h1
      · rw [List.mem_singleton.mp h1]
        intro hc
        apply hdne
        rw [← hdid]
        exact hc

theorem wellKeyed_repoUpdate_self {repo : List (String × Device)}
    (h : WellKeyed repo) (d : Device) : WellKeyed (repoUpdate repo d.id d) := by
  intro kd hkd
  rcases mem_repoUpdate hkd with h1 | h1
  · rw [h1]
  · exact h _ h1

theorem wellKeyed_foldUpdate (fired : List Device) (repo : List (String × Device))
    (h : WellKeyed repo) :
    WellKeyed (fired.foldl (fun repo d => repoUpdate repo d.id d) repo) := by
  induction fired generalizing repo with
  | nil => exact h
  | cons d ds ih => exact ih _ (wellKeyed_repoUpdate_self h d)

theorem check_offline_inv (locId : String) (now : Int) (s : DiscoveryState)
    (h : DiscInv locId s) : DiscInv locId (check_offline now s) := by
  obtain ⟨hloc, hrepo, hdisc, hev⟩ := h
  simp only [check_offline, DiscInv]
  refine ⟨hloc, ?_, ?_, ?_⟩
  · exact wellKeyed_foldUpdate _ _ hrepo
  · intro kd hkd
    obtain ⟨kd', hmem, hor⟩ := sweepEntries_fst_mem hkd
    obtain ⟨hid', hne'⟩ := hdisc _ hmem
    rcases hor with h1 | h1
    · rw [h1]
      exact ⟨hid', hne'⟩
    · rw [h1]
      exact ⟨hid', hne'⟩
  · intro ev hevm
    rcases List.mem_append.mp hevm with h1 | h1
    · exact hev _ h1
    · obtain ⟨d', hd', hevd⟩ := List.mem_map.mp h1
      obtain ⟨kd', hmem, he⟩ := sweepEntries_snd_mem hd'
      obtain ⟨hid', hne'⟩ := hdisc _ hmem
      rw [← hevd]
      simpa [he, markOffline, hid'] using hne'

theorem discovery_step_inv (locId : String) (s : DiscoveryState) (o : DiscoveryObs)
    (h : DiscInv locId s) : DiscInv locId (discovery_step s o) := by
  cases o with
  | added name info now => exact on_device_added_inv locId s name info now h
  | removed name => exact on_device_removed_inv locId s name h
  | updated name info now =>
    exact on_device_added_inv locId _ name info now (on_device_removed_inv locId s name h)
  | sweep now => exact check_offline_inv locId now s h

theorem discovery_run_inv (locId : String) (obs : List DiscoveryObs) (s : DiscoveryState)
    (h : DiscInv locId s) : DiscInv locId (discovery_run s obs) := by
  induction obs generalizing s with
  | nil => exact h
  | cons o os ih => exact ih _ (discovery_step_inv locId s o h)

theorem discovery_start_inv (localDev : Device) (repo0 : List (String × Device))
    (hrepo : WellKeyed repo0) : DiscInv localDev.id (discovery_start localDev repo0) := by
  refine ⟨rfl, ?_, ?_, ?_⟩
  · intro kd hkd
    rcases mem_repoUpdate hkd with h1 | h1
    · rw [h1]
    · exact hrepo _ h1
  · intro kd hkd
    simp [discovery_start] at hkd
  · intro ev hevm
    simp [discovery_start] at hevm

/-- C8: in every state reachable by any sequence of zeroconf callbacks and
sweep iterations from a started service, the discovered-peer set never
contains an entry keyed by — or holding a device with — the local
device's id, and no listener notification ever carried a device with the
local id.  The guard in `_on_device_added` compares the advertised
`device_id` TXT property against `self.local_device.id` (never an
address), which is what the induction turns on. -/
theorem discovery_never_reports_local (localDev : Device)
    (repo0 : List (String × Device)) (obs : List DiscoveryObs)
    (hrepo : WellKeyed repo0) :
    (∀ kd ∈ (discovery_run (discovery_start localDev repo0) obs).discovered_devices,
      (kd : String × Device).1 ≠ localDev.id ∧ (kd : String × Device).2.id ≠ localDev.id) ∧
    (∀ ev ∈ (discovery_run (discovery_start localDev repo0) obs).events,
      (ev : String × Device).2.id ≠ localDev.id) := by
  obtain ⟨-, -, hdisc, hev⟩ :=
    discovery_run_inv localDev.id obs _ (discovery_start_inv localDev repo0 hrepo)
  refine ⟨fun kd hkd => ?_, hev⟩
  obtain ⟨hid, hne⟩ := hdisc kd hkd
  refine ⟨hne, ?_⟩
  rw [hid]
  exact hne

/-- C8 witness: `discovery_never_reports_local` on a concrete run — an
empty repository, one peer advertisement (with an address, exercising the
id-not-address filter), one self-advertisement (dropped), and one sweep
late enough to fire the offline transition. -/
theorem discovery_never_reports_local_witness :
    (∀ kd ∈ (discovery_run (discovery_start deviceOnPort80 [])
        [DiscoveryObs.added "Beta._kms._tcp.local." (some infoB) 10,
         DiscoveryObs.added "Alpha._kms._tcp.local."
           (some { infoB with props_device_id := some uuidA }) 11,
         DiscoveryObs.sweep 100]).discovered_devices,
      (kd : String × Device).1 ≠ deviceOnPort80.id ∧
      (kd : String × Device).2.id ≠ deviceOnPort80.id) ∧
    (∀ ev ∈ (discovery_run (discovery_start deviceOnPort80 [])
        [DiscoveryObs.added "Beta._kms._tcp.local." (some infoB) 10,
         DiscoveryObs.added "Alpha._kms._tcp.local."
           (some { infoB with props_device_id := some uuidA }) 11,
         DiscoveryObs.sweep 100]).events,
      (ev : String × Device).2.id ≠ deviceOnPort80.id) :=
  discovery_never_reports_local deviceOnPort80 []
    [DiscoveryObs.added "Beta._kms._tcp.local." (some infoB) 10,
     DiscoveryObs.added "Alpha._kms._tcp.local."
       (some { infoB with props_device_id := some uuidA }) 11,
     DiscoveryObs.sweep 100]
    (fun _ h => absurd h (List.not_mem_nil _))

/-! ### C7: the offline transition fires exactly once -/

theorem markOffline_id (d : Device) : (markOffline d).id = d.id := rfl

theorem sweep_keys (t : Int) (l : List (String × Device)) :
    ((sweepEntries t l).1).map Prod.fst = l.map Prod.fst := by
  induction l with
  | nil => rfl
  | cons kd rest ih =>
    obtain ⟨k, d⟩ := kd
    simp only [sweepEntries]
    by_cases hc : offlineCond t d = true
    · rw [if_pos hc]
      simpa using ih
    · rw [if_neg hc]
      simpa using ih

theorem sweep_entry_mem (t : Int) (id : String) (d : Device)
    (l : List (String × Device)) (hmem : (id, d) ∈ l) :
    (id, if offlineCond t d = true then markOffline d else d) ∈ (sweepEntries t l).1 := by
  induction l with
  | nil => simp at hmem
  | cons kd rest ih =>
    obtain ⟨k, d'⟩ := kd
    simp only [sweepEntries]
    rcases List.mem_cons.mp hmem with h1 | h1
    · injection h1 with hk hd
      subst hk
      subst hd
      by_cases hc : offlineCond t d = true
      · rw [if_pos hc, if_pos hc]
        exact List.mem_cons_self ..
      · rw [if_neg hc, if_neg hc]
        exact List.mem_cons_self ..
    · by_cases hc : offlineCond t d' = true
      · rw [if_pos hc]
        exact List.mem_cons_of_mem _ (ih h1)
      · rw [if_neg hc]
        exact List.mem_cons_of_mem _ (ih h1)

theorem sweep_fired_none (t : Int) (id : String) (l : List (String × Device))
    (hids : ∀ kd ∈ l, (kd : String × Device).2.id = kd.1)
    (hout : id ∉ l.map Prod.fst) :
    (((sweepEntries t l).2).filter (fun x => x.id == id)).length = 0 := by
  induction l with
  | nil => rfl
  | cons kd rest ih =>
    obtain ⟨k, d⟩ := kd
    have hkne : k ≠ id := by
      intro hk
      exact hout (by simp [hk])
    have hdid : d.id = k := hids (k, d) (List.mem_cons_self ..)
    have hrest := ih (fun kd hkd => hids kd (List.mem_cons_of_mem _ hkd))
      (fun hmm => hout (by simpa using Or.inr (by simpa using hmm)))
    simp only [sweepEntries]
    by_cases hc : offlineCond t d = true
    · rw [if_pos hc]
      have hne : ((markOffline d).id == id) = false := by
        rw [markOffline_id, hdid]
        exact beq_eq_false_iff_ne.mpr hkne
      simp only [List.filter_cons, hne]
      exact hrest
    · rw [if_neg hc]
      exact hrest

theorem sweep_fired_count (t : Int) (id : String) (d : Device)
    (l : List (String × Device))
    (hids : ∀ kd ∈ l, (kd : String × Device).2.id = kd.1)
    (hnodup : (l.map Prod.fst).Nodup)
    (hmem : (id, d) ∈ l) :
    (((sweepEntries t l).2).filter (fun x => x.id == id)).length
      = if offlineCond t d = true then 1 else 0 := by
  induction l with
  | nil => simp at hmem
  | cons kd rest ih =>
    obtain ⟨k, d'⟩ := kd
    have hdid : d'.id = k := hids (k, d') (List.mem_cons_self ..)
    rcases List.mem_cons.mp hmem with h1 | h1
    · injection h1 with hk hd
      subst hk
      subst hd
      have hout : id ∉ rest.map Prod.fst := by
        have := hnodup
        simp only [List.map_cons, List.nodup_cons] at this
        exact this.1
      have hnone := sweep_fired_none t id rest
        (fun kd hkd => hids kd (List.mem_cons_of_mem _ hkd)) hout
      simp only [sweepEntries]
      by_cases hc : offlineCond t d = true
      · rw [if_pos hc, if_pos hc]
        have heq : ((markOffline d).id == id) = true := by
          rw [markOffline_id, hdid]
          exact beq_self_eq_true id
        simp only [List.filter_cons, heq, if_true, List.length_cons, hnone]
      · rw [if_neg hc, if_neg hc]
        exact hnone
    · have hkne : k ≠ id := by
        intro hk
        subst hk
        simp only [List.map_cons, List.nodup_cons] at hnodup
        exact hnodup.1 (by
          have : (k, d) ∈ rest := h1
          exact List.mem_map.mpr ⟨(k, d), this, rfl⟩)
      have hrest := ih (fun kd hkd => hids kd (List.mem_cons_of_mem _ hkd))
        (by simpa using (List.nodup_cons.mp (by simpa using hnodup)).2) h1
      simp only [sweepEntries]
      by_cases hc : offlineCond t d' = true
      · rw [if_pos hc]
        have hne : ((markOffline d').id == id) = false := by
          rw [markOffline_id, hdid]
          exact beq_eq_false_iff_ne.mpr hkne
        simp only [List.filter_cons, hne]
        exact hrest
      · rw [if_neg hc]
        exact hrest

theorem offlineEventCount_append (id : String) (a b : List (String × Device)) :
    offlineEventCount id (a ++ b) = offlineEventCount id a + offlineEventCount id b := by
  simp [offlineEventCount, List.filter_append]

theorem check_offline_event_count (t : Int) (s : DiscoveryState) (id : String) :
    offlineEventCount id (check_offline t s).events
      = offlineEventCount id s.events
        + (((sweepEntries t s.discovered_devices).2).filter (fun x => x.id == id)).length := by
  show offlineEventCount id (s.events
        ++ ((sweepEntries t s.discovered_devices).2).map (fun d => ("device_offline", d)))
      = _
  rw [offlineEventCount_append]
  congr 1
  generalize (sweepEntries t s.discovered_devices).2 = fired
  induction fired with
  | nil => rfl
  | cons d ds ih =>
    simp only [List.map_cons, List.filter_cons, offlineEventCount] at ih ⊢
    by_cases hdi : (d.id == id) = true
    · simp only [hdi, beq_self_eq_true, Bool.and_true, Bool.true_and, if_true,
        List.length_cons]
      rw [ih]
    · simp only [hdi, beq_self_eq_true, Bool.and_false, Bool.true_and,
        Bool.false_eq_true, if_false]
      rw [ih]

theorem sweeps_no_refire (ts : List Int) (s : DiscoveryState) (id : String) (d : Device)
    (hids : ∀ kd ∈ s.discovered_devices, (kd : String × Device).2.id = kd.1)
    (hnodup : (s.discovered_devices.map Prod.fst).Nodup)
    (hmem : (id, d) ∈ s.discovered_devices)
    (hreg : d.is_registered = false) :
    offlineEventCount id (discovery_run s (ts.map DiscoveryObs.sweep)).events
      = offlineEventCount id s.events := by
  induction ts generalizing s d with
  | nil => rfl
  | cons t ts ih =>
    have hstep : discovery_run s ((t :: ts).map DiscoveryObs.sweep)
        = discovery_run (check_offline t s) (ts.map DiscoveryObs.sweep) := rfl
    have hc : offlineCond t d = false := by
      simp [offlineCond, hreg]
    have hids' : ∀ kd ∈ (check_offline t s).discovered_devices,
        (kd : String × Device).2.id = kd.1 := by
      intro kd hkd
      obtain ⟨kd', hmem', hor⟩ := sweepEntries_fst_mem hkd
      rcases hor with h1 | h1
      · rw [h1]
        exact hids _ hmem'
      · rw [h1]
        show (markOffline kd'.2).id = kd'.1
        rw [markOffline_id]
        exact hids _ hmem'
    have hnodup' : ((check_offline t s).discovered_devices.map Prod.fst).Nodup := by
      show (((sweepEntries t s.discovered_devices).1).map Prod.fst).Nodup
      rw [sweep_keys]
      exact hnodup
    have hmem' : (id, d) ∈ (check_offline t s).discovered_devices := by
      have := sweep_entry_mem t id d s.discovered_devices hmem
      rwa [if_neg (by simp [hc])] at this
    have hcount := check_offline_event_count t s id
    have hfired := sweep_fired_count t id d s.discovered_devices hids hnodup hmem
    rw [hstep, ih (check_offline t s) d hids' hnodup' hmem' hreg, hcount, hfired]
    simp [hc]

/-- C7: a registered discovered peer that is never re-sighted and whose
silence exceeds the 60 s liveness window by some sweep time transitions
to offline exactly once across the whole sweep sequence: the
`device_offline` notification count for its id rises by exactly one, no
matter how many further sweeps run while it stays silent (`is_registered`
is cleared by the first firing sweep and gates every later one). -/
theorem discovery_offline_fires_once (s : DiscoveryState) (id : String) (d : Device)
    (times : List Int)
    (hids : ∀ kd ∈ s.discovered_devices, (kd : String × Device).2.id = kd.1)
    (hnodup : (s.discovered_devices.map Prod.fst).Nodup)
    (hmem : (id, d) ∈ s.discovered_devices)
    (hreg : d.is_registered = true)
    (hpast : ∃ t ∈ times, t - d.last_seen > 60) :
    offlineEventCount id
        (discovery_run s (times.map DiscoveryObs.sweep)).events
      = offlineEventCount id s.events + 1 := by
  induction times generalizing s d with
  | nil => simp at hpast
  | cons t ts ih =>
    have hstep : discovery_run s ((t :: ts).map DiscoveryObs.sweep)
        = discovery_run (check_offline t s) (ts.map DiscoveryObs.sweep) := rfl
    have hcount := check_offline_event_count t s id
    have hfired := sweep_fired_count t id d s.discovered_devices hids hnodup hmem
    have hids' : ∀ kd ∈ (check_offline t s).discovered_devices,
        (kd : String × Device).2.id = kd.1 := by
      intro kd hkd
      obtain ⟨kd', hmem', hor⟩ := sweepEntries_fst_mem hkd
      rcases hor with h1 | h1
      · rw [h1]
        exact hids _ hmem'
      · rw [h1]
        show (markOffline kd'.2).id = kd'.1
        rw [markOffline_id]
        exact hids _ hmem'
    have hnodup' : ((check_offline t s).discovered_devices.map Prod.fst).Nodup := by
      show (((sweepEntries t s.discovered_devices).1).map Prod.fst).Nodup
      rw [sweep_keys]
      exact hnodup
    have hmem' : (id, if offlineCond t d = true then markOffline d else d)
        ∈ (check_offline t s).discovered_devices :=
      sweep_entry_mem t id d s.discovered_devices hmem
    by_cases hc : offlineCond t d = true
    · rw [if_pos hc] at hmem'
      rw [hstep, sweeps_no_refire ts (check_offline t s) id (markOffline d)
        hids' hnodup' hmem' rfl, hcount, hfired, if_pos hc]
    · rw [if_neg hc] at hmem'
      have hnot : ¬ (t - d.last_seen > 60) := by
        intro hgt
        apply absurd hc
        simp only [offlineCond, hreg, Bool.and_true, not_not]
        exact decide_eq_true hgt
      have hpast' : ∃ t' ∈ ts, t' - d.last_seen > 60 := by
        obtain ⟨t', ht', hgt⟩ := hpast
        rcases List.mem_cons.mp ht' with h1 | h1
        · exact absurd (h1 ▸ hgt) hnot
        · exact ⟨t', h1, hgt⟩
      rw [hstep, ih (check_offline t s) d hids' hnodup' hmem' hreg hpast',
        hcount, hfired, if_neg hc]

/-- C7 witness: `discovery_offline_fires_once` on a concrete single-peer
state swept at times 10 (inside the window), 100 (fires) and 200 (must
not re-fire). -/
theorem discovery_offline_fires_once_witness :
    offlineEventCount uuidB
        (discovery_run discStateB ([(10 : Int), 100, 200].map DiscoveryObs.sweep)).events
      = offlineEventCount uuidB discStateB.events + 1 :=
  discovery_offline_fires_once discStateB uuidB devB [10, 100, 200]
    (by decide) (by decide) (by decide) (by decide) (by decide)

/-! ### Round trip of the JSON codec: decimal integers -/

theorem digitChar_spec : ∀ k < 10,
    (Char.ofNat ('0'.toNat + k)).toNat - '0'.toNat = k ∧
    isDigitChar (Char.ofNat ('0'.toNat + k)) = true ∧
    (1 ≤ k → Char.ofNat ('0'.toNat + k) ≠ '0') := by decide

theorem natDigitsGo_fuel : ∀ f1 : Nat, ∀ f2 n : Nat, n < f1 → n < f2 →
    natDigitsGo f1 n = natDigitsGo f2 n := by
  intro f1
  induction f1 with
  | zero => intro f2 n h1 _; omega
  | succ f1 ih =>
    intro f2 n h1 h2
    cases f2 with
    | zero => omega
    | succ f2 =>
      simp only [natDigitsGo]
      by_cases hn : n < 10
      · rw [if_pos hn, if_pos hn]
      · rw [if_neg hn, if_neg hn, ih f2 (n / 10) (by omega) (by omega)]

theorem natChars_unfold (n : Nat) :
    natChars n = if n < 10 then [Char.ofNat ('0'.toNat + n)]
      else natChars (n / 10) ++ [Char.ofNat ('0'.toNat + n % 10)] := by
  show natDigitsGo (n + 1) n = _
  simp only [natDigitsGo]
  by_cases hn : n < 10
  · rw [if_pos hn, if_pos hn]
  · rw [if_neg hn, if_neg hn,
      natDigitsGo_fuel n (n / 10 + 1) (n / 10) (by omega) (by omega)]
    rfl

theorem natChars_digits (n : Nat) : ∀ c ∈ natChars n, isDigitChar c = true := by
  induction n using Nat.strongRecOn with
  | _ n ih =>
    rw [natChars_unfold]
    intro c hc
    by_cases hn : n < 10
    · rw [if_pos hn] at hc
      rw [List.mem_singleton.mp hc]
      exact (digitChar_spec n hn).2.1
    · rw [if_neg hn] at hc
      rcases List.mem_append.mp hc with h1 | h1
      · exact ih (n / 10) (by omega) c h1
      · rw [List.mem_singleton.mp h1]
        exact (digitChar_spec (n % 10) (by omega)).2.1

theorem natChars_head (n : Nat) :
    ∃ c t, natChars n = c :: t ∧ isDigitChar c = true ∧ (1 ≤ n → c ≠ '0') := by
  induction n using Nat.strongRecOn with
  | _ n ih =>
    rw [natChars_unfold]
    by_cases hn : n < 10
    · rw [if_pos hn]
      exact ⟨_, _, rfl, (digitChar_spec n hn).2.1, fun h1 => (digitChar_spec n hn).2.2 h1⟩
    · rw [if_neg hn]
      obtain ⟨c, t, heq, hdig, hz⟩ := ih (n / 10) (by omega)
      rw [heq]
      exact ⟨c, _, rfl, hdig, fun _ => hz (by omega)⟩

theorem digitsVal_natChars (n : Nat) : digitsVal (natChars n) = n := by
  induction n using Nat.strongRecOn with
  | _ n ih =>
    rw [natChars_unfold]
    by_cases hn : n < 10
    · rw [if_pos hn]
      simp only [digitsVal, List.foldl_cons, List.foldl_nil]
      rw [Nat.zero_mul, Nat.zero_add, (digitChar_spec n hn).1]
    · rw [if_neg hn]
      have hmod := (digitChar_spec (n % 10) (by omega)).1
      simp only [digitsVal, List.foldl_append, List.foldl_cons, List.foldl_nil]
      have hval : (natChars (n / 10)).foldl
          (fun a c => a * 10 + (c.toNat - '0'.toNat)) 0 = n / 10 := ih (n / 10) (by omega)
      rw [hval, hmod]
      omega

/-! ### Round trip of the JSON codec: integer tokens -/

theorem numDelim_head {c : Char} {t : List Char} (h : numDelim (c :: t) = true) :
    isDigitChar c = false ∧ c ≠ '.' ∧ c ≠ 'e' ∧ c ≠ 'E' := by
  simp only [numDelim, Bool.not_eq_true', Bool.or_eq_false_iff,
    decide_eq_false_iff_not] at h
  exact ⟨h.1.1.1, h.1.1.2, h.1.2, h.2⟩

theorem takeDigitsRun_notdigit {c : Char} {t : List Char}
    (h : isDigitChar c = false) : takeDigitsRun (c :: t) = ([], c :: t) := by
  simp [takeDigitsRun, h]

theorem takeDigitsRun_stop {cs : List Char} (h : numDelim cs = true) :
    takeDigitsRun cs = ([], cs) := by
  match cs with
  | [] => rfl
  | c :: t => exact takeDigitsRun_notdigit (numDelim_head h).1

theorem takeDigitsRun_append {ds rest : List Char}
    (hds : ∀ c ∈ ds, isDigitChar c = true)
    (hrest : takeDigitsRun rest = ([], rest)) :
    takeDigitsRun (ds ++ rest) = (ds, rest) := by
  induction ds with
  | nil =>
    rw [List.nil_append, hrest]
  | cons d tl ih =>
    have hd1 : isDigitChar d = true := hds d (List.mem_cons_self ..)
    have htl := ih (fun x hx => hds x (List.mem_cons_of_mem _ hx))
    simp [takeDigitsRun, hd1, htl]

theorem parseNatTok_natChars (n : Nat) (rest : List Char)
    (hr : numDelim rest = true) :
    parseNatTok (natChars n ++ rest) = some (n, rest) := by
  obtain ⟨c, t, heq, hdig, hz⟩ := natChars_head n
  have htd : takeDigitsRun (natChars n ++ rest) = (natChars n, rest) :=
    takeDigitsRun_append (natChars_digits n) (takeDigitsRun_stop hr)
  have hcond : ¬(c = '0' ∧ t ≠ []) := by
    by_cases hn0 : 1 ≤ n
    · intro hcon
      exact hz hn0 hcon.1
    · have hn : n = 0 := by omega
      have h0 : natChars 0 = ['0'] := by decide
      rw [hn, h0] at heq
      injection heq with h1 h2
      intro hcon
      exact hcon.2 h2.symm
  have hdval : digitsVal (c :: t) = n := by
    rw [← heq, digitsVal_natChars]
  rw [heq] at htd ⊢
  simp only [parseNatTok, htd]
  rw [if_neg hcond]
  cases rest with
  | nil => rw [hdval]
  | cons c2 t2 =>
    obtain ⟨-, hdot, he, hE⟩ := numDelim_head hr
    simp [hdval, hdot, he, hE]

theorem digit_not_minus {c : Char} (h : isDigitChar c = true) : c ≠ '-' := by
  intro hc
  rw [hc] at h
  exact absurd h (by decide)

theorem parseIntTok_intChars (i : Int) (rest : List Char)
    (hr : numDelim rest = true) :
    parseIntTok (intChars i ++ rest) = some (i, rest) := by
  by_cases hi : i < 0
  · have harg : intChars i ++ rest = '-' :: (natChars i.natAbs ++ rest) := by
      simp [intChars, hi]
    rw [harg]
    simp only [parseIntTok, if_true]
    rw [parseNatTok_natChars i.natAbs rest hr]
    have habs : -(i.natAbs : Int) = i := by omega
    show some (-(i.natAbs : Int), rest) = some (i, rest)
    rw [habs]
  · obtain ⟨c, t, heq, hdig, -⟩ := natChars_head i.natAbs
    have harg : intChars i ++ rest = c :: (t ++ rest) := by
      simp [intChars, hi, heq]
    rw [harg]
    simp only [parseIntTok]
    rw [if_neg (digit_not_minus hdig), ← List.cons_append, ← heq,
      parseNatTok_natChars i.natAbs rest hr]
    have habs : (i.natAbs : Int) = i := by omega
    show some ((i.natAbs : Int), rest) = some (i, rest)
    rw [habs]

/-! ### Round trip of the JSON codec: strings -/

theorem hexVal_hexDigitLower : ∀ k < 16, hexVal (hexDigitLower k) = some k := by
  decide

theorem hex4_uEscape (n : Nat) (h : n < 0x10000) :
    hex4 (hexDigitLower (n / 4096 % 16)) (hexDigitLower (n / 256 % 16))
      (hexDigitLower (n / 16 % 16)) (hexDigitLower (n % 16)) = some n := by
  have h1 := hexVal_hexDigitLower (n / 4096 % 16) (by omega)
  have h2 := hexVal_hexDigitLower (n / 256 % 16) (by omega)
  have h3 := hexVal_hexDigitLower (n / 16 % 16) (by omega)
  have h4 := hexVal_hexDigitLower (n % 16) (by omega)
  simp only [hex4, h1, h2, h3, h4, Option.some.injEq]
  omega

theorem char_valid_range (c : Char) :
    c.toNat < 0xD800 ∨ (0xDFFF < c.toNat ∧ c.toNat < 0x110000) := c.valid

theorem decodeEsc_u_val (a b c2 d : Char) (r2 : List Char) (n : Nat)
    (hx : hex4 a b c2 d = some n) :
    decodeEsc ('u' :: a :: b :: c2 :: d :: r2) = hexEsc n r2 := by
  simp only [decodeEsc, hx]

theorem hexEsc_plain (n : Nat) (r2 : List Char)
    (hns1 : ¬(0xD800 ≤ n ∧ n < 0xDC00)) (hns2 : ¬(0xDC00 ≤ n ∧ n < 0xE000)) :
    hexEsc n r2 = some (Char.ofNat n, r2) := by
  simp only [hexEsc]
  rw [if_neg hns1, if_neg hns2]

theorem hexEsc_pair (n m : Nat) (r3 : List Char)
    (hs1 : 0xD800 ≤ n ∧ n < 0xDC00) (hm : m < 0x10000)
    (hs2 : 0xDC00 ≤ m ∧ m < 0xE000) :
    hexEsc n ('\\' :: 'u' :: hexDigitLower (m / 4096 % 16) :: hexDigitLower (m / 256 % 16)
        :: hexDigitLower (m / 16 % 16) :: hexDigitLower (m % 16) :: r3)
      = some (Char.ofNat (0x10000 + (n - 0xD800) * 0x400 + (m - 0xDC00)), r3) := by
  simp only [hexEsc]
  rw [if_pos hs1]
  simp only [hex4_uEscape m hm]
  rw [if_pos hs2]

theorem parseStrBody_quote (fuel : Nat) (acc r : List Char) :
    parseStrBody (fuel + 1) acc ('"' :: r) = some (String.mk acc.reverse, r) := rfl

theorem parseStrBody_esc (fuel : Nat) (acc r : List Char) :
    parseStrBody (fuel + 1) acc ('\\' :: r)
      = (decodeEsc r).bind (fun p => parseStrBody fuel (p.1 :: acc) p.2) := rfl

theorem parseStrBody_plain (fuel : Nat) (acc : List Char) (c : Char) (r : List Char)
    (h1 : ¬ c = '"') (h2 : ¬ c = '\\') (h3 : ¬ c.toNat < 0x20) :
    parseStrBody (fuel + 1) acc (c :: r) = parseStrBody fuel (c :: acc) r := by
  show (if c = '"' then some (String.mk acc.reverse, r)
        else if c = '\\' then
          (decodeEsc r).bind (fun p => parseStrBody fuel (p.1 :: acc) p.2)
        else if c.toNat < 0x20 then none
        else parseStrBody fuel (c :: acc) r) = parseStrBody fuel (c :: acc) r
  rw [if_neg h1, if_neg h2, if_neg h3]

set_option maxRecDepth 2000 in
theorem parseStrBody_escape (fuel : Nat) (c : Char) (acc rest : List Char) :
    parseStrBody (fuel + 1) acc (escapeChar c ++ rest)
      = parseStrBody fuel (c :: acc) rest := by
  by_cases h1 : c = '"'
  · subst h1; rfl
  by_cases h2 : c = '\\'
  · subst h2; rfl
  by_cases h3 : c = '\n'
  · subst h3; rfl
  by_cases h4 : c = '\r'
  · subst h4; rfl
  by_cases h5 : c = '\t'
  · subst h5; rfl
  by_cases h6 : c = Char.ofNat 8
  · subst h6; rfl
  by_cases h7 : c = Char.ofNat 12
  · subst h7; rfl
  by_cases h8 : c.toNat < 0x20
  · simp only [escapeChar, if_neg h1, if_neg h2, if_neg h3, if_neg h4, if_neg h5,
      if_neg h6, if_neg h7, if_pos h8, uEscape, List.cons_append, List.nil_append]
    rw [parseStrBody_esc,
      decodeEsc_u_val _ _ _ _ _ _ (hex4_uEscape c.toNat (by omega)),
      hexEsc_plain c.toNat rest (by omega) (by omega), Char.ofNat_toNat]
    rfl
  by_cases h9 : c.toNat < 0x7f
  · simp only [escapeChar, if_neg h1, if_neg h2, if_neg h3, if_neg h4, if_neg h5,
      if_neg h6, if_neg h7, if_neg h8, if_pos h9, List.cons_append, List.nil_append]
    exact parseStrBody_plain fuel acc c rest h1 h2 h8
  by_cases h10 : c.toNat < 0x10000
  · have hrange := char_valid_range c
    simp only [escapeChar, if_neg h1, if_neg h2, if_neg h3, if_neg h4, if_neg h5,
      if_neg h6, if_neg h7, if_neg h8, if_neg h9, if_pos h10, uEscape,
      List.cons_append, List.nil_append]
    rw [parseStrBody_esc,
      decodeEsc_u_val _ _ _ _ _ _ (hex4_uEscape c.toNat (by omega)),
      hexEsc_plain c.toNat rest (by omega) (by omega), Char.ofNat_toNat]
    rfl
  · have hrange := char_valid_range c
    have hhi : 0xD800 ≤ 0xD800 + (c.toNat - 0x10000) / 0x400 ∧
        0xD800 + (c.toNat - 0x10000) / 0x400 < 0xDC00 := by omega
    have hlo : 0xDC00 ≤ 0xDC00 + (c.toNat - 0x10000) % 0x400 ∧
        0xDC00 + (c.toNat - 0x10000) % 0x400 < 0xE000 := by omega
    have harg : escapeChar c ++ rest
        = uEscape (0xD800 + (c.toNat - 0x10000) / 0x400)
          ++ (uEscape (0xDC00 + (c.toNat - 0x10000) % 0x400) ++ rest) := by
      simp only [escapeChar, if_neg h1, if_neg h2, if_neg h3, if_neg h4, if_neg h5,
        if_neg h6, if_neg h7, if_neg h8, if_neg h9, if_neg h10, List.append_assoc]
    rw [harg]
    simp only [uEscape, List.cons_append, List.nil_append]
    have harith : 0x10000
        + (0xD800 + (c.toNat - 0x10000) / 0x400 - 0xD800) * 0x400
        + (0xDC00 + (c.toNat - 0x10000) % 0x400 - 0xDC00) = c.toNat := by omega
    rw [parseStrBody_esc,
      decodeEsc_u_val _ _ _ _ _ _
        (hex4_uEscape (0xD800 + (c.toNat - 0x10000) / 0x400) (by omega)),
      hexEsc_pair _ _ rest hhi (by omega) hlo, harith, Char.ofNat_toNat]
    rfl

theorem parseStrBody_flatMap (cs : List Char) : ∀ (fuel : Nat) (acc rest : List Char),
    cs.length < fuel →
    parseStrBody fuel acc (cs.flatMap escapeChar ++ '"' :: rest)
      = some (String.mk (acc.reverse ++ cs), rest) := by
  induction cs with
  | nil =>
    intro fuel acc rest hf
    cases fuel with
    | zero => omega
    | succ f =>
      simp only [List.flatMap_nil, List.nil_append, List.append_nil]
      exact parseStrBody_quote f acc rest
  | cons c cs ih =>
    intro fuel acc rest hf
    cases fuel with
    | zero => omega
    | succ f =>
      rw [List.flatMap_cons, List.append_assoc, parseStrBody_escape,
        ih f (c :: acc) rest (by simpa using hf)]
      simp

theorem parseStrBody_strChars (s : String) (fuel : Nat) (rest : List Char)
    (hf : s.toList.length < fuel) :
    parseStrBody fuel [] (s.toList.flatMap escapeChar ++ '"' :: rest) = some (s, rest) := by
  rw [parseStrBody_flatMap s.toList fuel [] rest hf]
  obtain ⟨d⟩ := s
  rfl

/-! ### Round trip of the JSON codec: dispatch support -/

theorem skipSpace_cons_not {c : Char} {t : List Char} (h : jspace c = false) :
    skipSpace (c :: t) = c :: t := by
  simp [skipSpace, h]

theorem skipSpace_space (cs : List Char) : skipSpace (' ' :: cs) = skipSpace cs := by
  simp [skipSpace, jspace]

theorem numDelim_of_head (c : Char) (t : List Char)
    (h : (isDigitChar c || c = '.' || c = 'e' || c = 'E') = false) :
    numDelim (c :: t) = true := by
  simp [numDelim, h]

theorem digitChar_not_space {c : Char} (h : isDigitChar c = true) :
    jspace c = false := by
  cases hj : jspace c
  · rfl
  · simp only [jspace, Bool.or_eq_true, decide_eq_true_eq] at hj
    rcases hj with ((h1 | h1) | h1) | h1 <;>
      (subst h1; exact absurd h (by decide))

theorem digitChar_ne {c : Char} (h : isDigitChar c = true) :
    c ≠ 'n' ∧ c ≠ 't' ∧ c ≠ 'f' ∧ c ≠ '"' ∧ c ≠ '[' ∧ c ≠ lbrace ∧ c ≠ ']' := by
  refine ⟨?_, ?_, ?_, ?_, ?_, ?_, ?_⟩ <;>
    (intro heq; subst heq; exact absurd h (by decide))

theorem escapeChar_length_pos (c : Char) : 1 ≤ (escapeChar c).length := by
  unfold escapeChar
  repeat' split
  all_goals simp [uEscape]

theorem length_le_flatMap_escape (cs : List Char) :
    cs.length ≤ (cs.flatMap escapeChar).length := by
  induction cs with
  | nil => simp
  | cons c t ih =>
    rw [List.flatMap_cons, List.length_append, List.length_cons]
    have := escapeChar_length_pos c
    omega

/-- Every rendered value begins with a non-space character other than `]`. -/
theorem dumps_head (v : JVal) :
    ∃ c t, JVal.dumps v = c :: t ∧ jspace c = false ∧ c ≠ ']' := by
  cases v with
  | null => exact ⟨'n', _, rfl, by decide, by decide⟩
  | bool b =>
    cases b with
    | true => exact ⟨'t', _, rfl, by decide, by decide⟩
    | false => exact ⟨'f', _, rfl, by decide, by decide⟩
  | int n =>
    by_cases hm : n < 0
    · refine ⟨'-', natChars n.natAbs, ?_, by decide, by decide⟩
      simp [JVal.dumps, intChars, hm, natChars]
    · obtain ⟨c, t, heq, hdig, -⟩ := natChars_head n.natAbs
      refine ⟨c, t, ?_, digitChar_not_space hdig, (digitChar_ne hdig).2.2.2.2.2.2⟩
      simp [JVal.dumps, intChars, hm, heq]
  | str s => exact ⟨'"', _, rfl, by decide, by decide⟩
  | arr xs =>
    cases xs with
    | nil => exact ⟨'[', _, rfl, by decide, by decide⟩
    | cons v tl => exact ⟨'[', _, rfl, by decide, by decide⟩
  | obj ms =>
    cases ms with
    | nil => exact ⟨lbrace, _, rfl, by decide, by decide⟩
    | cons k v tl => exact ⟨lbrace, _, rfl, by decide, by decide⟩

theorem skipSpace_dumps (v : JVal) (x : List Char) :
    skipSpace (JVal.dumps v ++ x) = JVal.dumps v ++ x := by
  obtain ⟨c, t, heq, hsp, -⟩ := dumps_head v
  rw [heq, List.cons_append, skipSpace_cons_not hsp]

theorem parseVal_skipSpace_eq (f : Nat) (cs cs2 : List Char)
    (h : skipSpace cs = skipSpace cs2) : parseVal (f + 1) cs = parseVal (f + 1) cs2 := by
  simp only [parseVal, h]

theorem parseMembers_skipSpace_eq (f : Nat) (cs cs2 : List Char)
    (h : skipSpace cs = skipSpace cs2) :
    parseMembers (f + 1) cs = parseMembers (f + 1) cs2 := by
  simp only [parseMembers, h]

theorem parseVal_ws (f : Nat) (cs : List Char) :
    parseVal f (' ' :: cs) = parseVal f cs := by
  cases f with
  | zero => rfl
  | succ f2 => exact parseVal_skipSpace_eq f2 _ _ (skipSpace_space cs)

theorem parseItems_ws (f : Nat) (cs : List Char) :
    parseItems f (' ' :: cs) = parseItems f cs := by
  cases f with
  | zero => rfl
  | succ f2 => simp only [parseItems, parseVal_ws]

theorem parseMembers_ws (f : Nat) (cs : List Char) :
    parseMembers f (' ' :: cs) = parseMembers f cs := by
  cases f with
  | zero => rfl
  | succ f2 => exact parseMembers_skipSpace_eq f2 _ _ (skipSpace_space cs)

theorem numDelim_dumpsTail_arr (tl : JItems) (rest : List Char) :
    numDelim (JItems.dumpsTail tl ++ ']' :: rest) = true := by
  cases tl with
  | nil => exact numDelim_of_head ']' rest (by decide)
  | cons v2 tl2 =>
    simp only [JItems.dumpsTail, List.cons_append]
    exact numDelim_of_head ',' _ (by decide)

theorem numDelim_dumpsTail_obj (tl : JMembers) (rest : List Char) :
    numDelim (JMembers.dumpsTail tl ++ rbrace :: rest) = true := by
  cases tl with
  | nil => exact numDelim_of_head rbrace rest (by decide)
  | cons k2 v2 tl2 =>
    simp only [JMembers.dumpsTail, List.cons_append]
    exact numDelim_of_head ',' _ (by decide)

theorem dumps_length_pos (v : JVal) : 1 ≤ (JVal.dumps v).length := by
  obtain ⟨c, t, heq, -, -⟩ := dumps_head v
  simp [heq]

theorem parseStrBody_self (s : String) (rest : List Char) :
    parseStrBody ((s.toList.flatMap escapeChar ++ '"' :: rest).length + 1) []
      (s.toList.flatMap escapeChar ++ '"' :: rest) = some (s, rest) := by
  apply parseStrBody_strChars
  have := length_le_flatMap_escape s.toList
  simp only [List.length_append, List.length_cons]
  omega

theorem skipSpace_strChars_cons (s : String) (x : List Char) :
    skipSpace (strChars s ++ x)
      = '"' :: ((s.toList.flatMap escapeChar ++ ['"']) ++ x) := by
  simp only [strChars, List.cons_append]
  exact skipSpace_cons_not (by decide)

mutual

/-- Parsing a rendered JSON value consumes exactly the rendering, given
fuel above its length and a remainder that cannot extend a number token. -/
theorem rt_val (v : JVal) (fuel : Nat) (rest : List Char)
    (hf : (JVal.dumps v).length < fuel) (hr : numDelim rest = true) :
    parseVal fuel (JVal.dumps v ++ rest) = some (v, rest) := by
  cases fuel with
  | zero => exact absurd hf (Nat.not_lt_zero _)
  | succ f =>
    cases v with
    | null => rfl
    | bool b => cases b <;> rfl
    | int n =>
      show parseVal (f + 1) (intChars n ++ rest) = some (JVal.int n, rest)
      by_cases hm : n < 0
      · have harg : intChars n ++ rest = '-' :: (natChars n.natAbs ++ rest) := by
          simp [intChars, hm]
        have hss : skipSpace ('-' :: (natChars n.natAbs ++ rest))
            = '-' :: (natChars n.natAbs ++ rest) := skipSpace_cons_not (by decide)
        rw [harg]
        simp only [parseVal, hss]
        rw [if_neg (by decide : ¬(('-' : Char) = 'n')),
          if_neg (by decide : ¬(('-' : Char) = 't')),
          if_neg (by decide : ¬(('-' : Char) = 'f')),
          if_neg (by decide : ¬(('-' : Char) = '"')),
          if_neg (by decide : ¬(('-' : Char) = '[')),
          if_neg (by decide : ¬(('-' : Char) = lbrace)),
          if_pos (Or.inl trivial : True ∨ isDigitChar '-' = true),
          ← harg, parseIntTok_intChars n rest hr]
      · obtain ⟨c, t, heq, hdig, -⟩ := natChars_head n.natAbs
        have hne := digitChar_ne hdig
        have harg : intChars n ++ rest = c :: (t ++ rest) := by
          simp [intChars, hm, heq]
        have hss : skipSpace (c :: (t ++ rest)) = c :: (t ++ rest) :=
          skipSpace_cons_not (digitChar_not_space hdig)
        rw [harg]
        simp only [parseVal, hss]
        rw [if_neg hne.1, if_neg hne.2.1, if_neg hne.2.2.1, if_neg hne.2.2.2.1,
          if_neg hne.2.2.2.2.1, if_neg hne.2.2.2.2.2.1,
          if_pos (Or.inr hdig : c = '-' ∨ isDigitChar c = true),
          ← harg, parseIntTok_intChars n rest hr]
    | str s =>
      have hss : skipSpace ('"' :: (s.toList.flatMap escapeChar ++ '"' :: rest))
          = '"' :: (s.toList.flatMap escapeChar ++ '"' :: rest) :=
        skipSpace_cons_not (by decide)
      have harg : JVal.dumps (JVal.str s) ++ rest
          = '"' :: (s.toList.flatMap escapeChar ++ '"' :: rest) := by
        simp [JVal.dumps, strChars]
      rw [harg]
      simp only [parseVal, hss]
      rw [if_neg (by decide : ¬(('"' : Char) = 'n')),
        if_neg (by decide : ¬(('"' : Char) = 't')),
        if_neg (by decide : ¬(('"' : Char) = 'f')),
        if_true,
        parseStrBody_self s rest]
    | arr xs =>
      cases xs with
      | nil => rfl
      | cons v1 tl =>
        have harg : JVal.dumps (JVal.arr (JItems.cons v1 tl)) ++ rest
            = '[' :: (JVal.dumps v1 ++ (JItems.dumpsTail tl ++ ']' :: rest)) := by
          simp [JVal.dumps, List.append_assoc]
        have hlen2 : (JVal.dumps v1).length + (JItems.dumpsTail tl).length + 1 < f := by
          simp only [JVal.dumps, List.length_cons, List.length_append,
            List.length_nil] at hf
          omega
        have hitems := rt_items v1 tl f rest hlen2
        have hss : skipSpace ('[' :: (JVal.dumps v1 ++ (JItems.dumpsTail tl ++ ']' :: rest)))
            = '[' :: (JVal.dumps v1 ++ (JItems.dumpsTail tl ++ ']' :: rest)) :=
          skipSpace_cons_not (by decide)
        rw [harg]
        simp only [parseVal, hss]
        rw [if_neg (by decide : ¬(('[' : Char) = 'n')),
          if_neg (by decide : ¬(('[' : Char) = 't')),
          if_neg (by decide : ¬(('[' : Char) = 'f')),
          if_neg (by decide : ¬(('[' : Char) = '"')),
          if_true]
        rw [skipSpace_dumps v1 (JItems.dumpsTail tl ++ ']' :: rest)]
        obtain ⟨c, t, heq, -, hne⟩ := dumps_head v1
        simp only [heq, List.cons_append]
        rw [if_neg hne, ← List.cons_append, ← heq, hitems]
    | obj ms =>
      cases ms with
      | nil => rfl
      | cons k v1 tl =>
        have harg : JVal.dumps (JVal.obj (JMembers.cons k v1 tl)) ++ rest
            = lbrace :: (strChars k ++ ':' :: ' ' :: (JVal.dumps v1 ++
                (JMembers.dumpsTail tl ++ rbrace :: rest))) := by
          simp [JVal.dumps, List.append_assoc]
        have hlen2 : (strChars k).length + (JVal.dumps v1).length
            + (JMembers.dumpsTail tl).length + 2 < f := by
          simp only [JVal.dumps, List.length_cons, List.length_append,
            List.length_nil] at hf
          omega
        have hmem := rt_members k v1 tl f rest hlen2
        have hss : skipSpace (lbrace :: (strChars k ++ ':' :: ' ' :: (JVal.dumps v1 ++
              (JMembers.dumpsTail tl ++ rbrace :: rest))))
            = lbrace :: (strChars k ++ ':' :: ' ' :: (JVal.dumps v1 ++
              (JMembers.dumpsTail tl ++ rbrace :: rest))) :=
          skipSpace_cons_not (by decide)
        rw [harg]
        simp only [parseVal, hss]
        rw [if_neg (by decide : ¬(lbrace = 'n')),
          if_neg (by decide : ¬(lbrace = 't')),
          if_neg (by decide : ¬(lbrace = 'f')),
          if_neg (by decide : ¬(lbrace = '"')),
          if_neg (by decide : ¬(lbrace = '[')),
          if_true]
        simp only [skipSpace_strChars_cons]
        rw [if_neg (by decide : ¬(('"' : Char) = rbrace))]
        have hback : ('"' : Char) :: ((k.toList.flatMap escapeChar ++ ['"']) ++
            (':' :: ' ' :: (JVal.dumps v1 ++ (JMembers.dumpsTail tl ++ rbrace :: rest))))
            = strChars k ++ ':' :: ' ' :: (JVal.dumps v1 ++
              (JMembers.dumpsTail tl ++ rbrace :: rest)) := by
          simp [strChars]
        rw [hback, hmem]
termination_by 2 * sizeOf v
decreasing_by
all_goals simp_wf
all_goals first
| omega
| (subst_vars; simp; omega)

/-- Parsing a rendered first array item, separator-prefixed tail and `]`
yields the item list and the remainder past the bracket. -/
theorem rt_items (v : JVal) (tl : JItems) (fuel : Nat) (rest : List Char)
    (hf : (JVal.dumps v).length + (JItems.dumpsTail tl).length + 1 < fuel) :
    parseItems fuel (JVal.dumps v ++ (JItems.dumpsTail tl ++ ']' :: rest))
      = some (JItems.cons v tl, rest) := by
  cases fuel with
  | zero => exact absurd hf (Nat.not_lt_zero _)
  | succ f =>
    have hval := rt_val v f (JItems.dumpsTail tl ++ ']' :: rest) (by omega)
      (numDelim_dumpsTail_arr tl rest)
    simp only [parseItems, hval]
    cases tl with
    | nil =>
      have hss : skipSpace (']' :: rest) = ']' :: rest := skipSpace_cons_not (by decide)
      simp only [JItems.dumpsTail, List.nil_append, hss]
      rw [if_neg (by decide : ¬((']' : Char) = ',')), if_true]
    | cons v2 tl2 =>
      have harg : JItems.dumpsTail (JItems.cons v2 tl2) ++ ']' :: rest
          = ',' :: ' ' :: (JVal.dumps v2 ++ (JItems.dumpsTail tl2 ++ ']' :: rest)) := by
        simp [JItems.dumpsTail, List.append_assoc]
      have hss : skipSpace (',' :: ' ' :: (JVal.dumps v2 ++ (JItems.dumpsTail tl2 ++ ']' :: rest)))
          = ',' :: ' ' :: (JVal.dumps v2 ++ (JItems.dumpsTail tl2 ++ ']' :: rest)) :=
        skipSpace_cons_not (by decide)
      have hrec := rt_items v2 tl2 f rest (by
        have hlen : (JItems.dumpsTail (JItems.cons v2 tl2)).length
            = (JVal.dumps v2).length + (JItems.dumpsTail tl2).length + 2 := by
          simp only [JItems.dumpsTail, List.length_cons, List.length_append]
        omega)
      simp only [harg, hss]
      rw [if_true, parseItems_ws, hrec]
termination_by 2 * (sizeOf v + sizeOf tl) + 1
decreasing_by
all_goals simp_wf
all_goals first
| omega
| (subst_vars; simp; omega)

/-- Parsing a rendered key, `": "`, value, separator-prefixed tail and
closing brace yields the member list and the remainder past the brace. -/
theorem rt_members (k : String) (v : JVal) (tl : JMembers) (fuel : Nat) (rest : List Char)
    (hf : (strChars k).length + (JVal.dumps v).length
      + (JMembers.dumpsTail tl).length + 2 < fuel) :
    parseMembers fuel (strChars k ++ ':' :: ' ' :: (JVal.dumps v ++
        (JMembers.dumpsTail tl ++ rbrace :: rest)))
      = some (JMembers.cons k v tl, rest) := by
  cases fuel with
  | zero => exact absurd hf (Nat.not_lt_zero _)
  | succ f =>
    have hval := rt_val v f (JMembers.dumpsTail tl ++ rbrace :: rest) (by omega)
      (numDelim_dumpsTail_obj tl rest)
    have hr2 : (k.toList.flatMap escapeChar ++ ['"']) ++
        (':' :: ' ' :: (JVal.dumps v ++ (JMembers.dumpsTail tl ++ rbrace :: rest)))
        = k.toList.flatMap escapeChar ++ '"' :: (':' :: ' ' :: (JVal.dumps v ++
          (JMembers.dumpsTail tl ++ rbrace :: rest))) := by
      simp
    have hss3 : skipSpace (':' :: ' ' :: (JVal.dumps v ++
        (JMembers.dumpsTail tl ++ rbrace :: rest)))
        = ':' :: ' ' :: (JVal.dumps v ++ (JMembers.dumpsTail tl ++ rbrace :: rest)) :=
      skipSpace_cons_not (by decide)
    simp only [parseMembers, skipSpace_strChars_cons]
    rw [if_true, hr2, parseStrBody_self k]
    simp only [hss3]
    rw [if_true, parseVal_ws, hval]
    cases tl with
    | nil =>
      have hss4 : skipSpace (rbrace :: rest) = rbrace :: rest := skipSpace_cons_not (by decide)
      simp only [JMembers.dumpsTail, List.nil_append, hss4]
      rw [if_neg (by decide : ¬(rbrace = ',')), if_true]
    | cons k2 v2 tl2 =>
      have harg2 : JMembers.dumpsTail (JMembers.cons k2 v2 tl2) ++ rbrace :: rest
          = ',' :: ' ' :: (strChars k2 ++ ':' :: ' ' :: (JVal.dumps v2 ++
            (JMembers.dumpsTail tl2 ++ rbrace :: rest))) := by
        simp [JMembers.dumpsTail, List.append_assoc]
      have hss5 : skipSpace (',' :: ' ' :: (strChars k2 ++ ':' :: ' ' :: (JVal.dumps v2 ++
          (JMembers.dumpsTail tl2 ++ rbrace :: rest))))
          = ',' :: ' ' :: (strChars k2 ++ ':' :: ' ' :: (JVal.dumps v2 ++
            (JMembers.dumpsTail tl2 ++ rbrace :: rest))) :=
        skipSpace_cons_not (by decide)
      have hrec := rt_members k2 v2 tl2 f rest (by
        have hlen : (JMembers.dumpsTail (JMembers.cons k2 v2 tl2)).length
            = (strChars k2).length + (JVal.dumps v2).length
              + (JMembers.dumpsTail tl2).length + 4 := by
          simp only [JMembers.dumpsTail, List.length_cons, List.length_append]
          omega
        omega)
      simp only [harg2, hss5]
      rw [if_true, parseMembers_ws, hrec]
termination_by 2 * (sizeOf v + sizeOf tl) + 1
decreasing_by
all_goals simp_wf
all_goals first
| omega
| (subst_vars; simp; omega)

end

theorem json_loads_dumps (v : JVal) : json_loads (JVal.dumps v) = some v := by
  have h := rt_val v ((JVal.dumps v).length + 1) [] (by omega) rfl
  rw [List.append_nil] at h
  simp only [json_loads, h]
  rfl

/-! ### Round trip of the UTF-8 codec -/

theorem utf8Step_ascii (v : Nat) (r : List Nat) (h : v < 0x80) :
    utf8Step v r = some (v, r) := by
  simp only [utf8Step, if_pos h]

theorem utf8Step_two (v : Nat) (r : List Nat) (h1 : 0x80 ≤ v) (h2 : v < 0x800) :
    utf8Step (0xC0 + v / 64) ((0x80 + v % 64) :: r) = some (v, r) := by
  have hcont : contByte (0x80 + v % 64) = true := by
    simp only [contByte, Bool.and_eq_true, decide_eq_true_eq]
    omega
  simp only [utf8Step]
  rw [if_neg (by omega : ¬(0xC0 + v / 64 < 0x80)),
    if_neg (by omega : ¬(0xC0 + v / 64 < 0xC0)),
    if_pos (by omega : 0xC0 + v / 64 < 0xE0)]
  simp only [hcont, if_true]
  rw [if_neg (by omega : ¬((0xC0 + v / 64 - 0xC0) * 64 + (0x80 + v % 64 - 0x80) < 0x80))]
  have harith : (0xC0 + v / 64 - 0xC0) * 64 + (0x80 + v % 64 - 0x80) = v := by omega
  rw [harith]

theorem utf8Step_three (v : Nat) (r : List Nat) (h2 : 0x800 ≤ v) (h3 : v < 0x10000)
    (hs : ¬(0xD800 ≤ v ∧ v < 0xE000)) :
    utf8Step (0xE0 + v / 4096) ((0x80 + v / 64 % 64) :: (0x80 + v % 64) :: r)
      = some (v, r) := by
  have hcont1 : contByte (0x80 + v / 64 % 64) = true := by
    simp only [contByte, Bool.and_eq_true, decide_eq_true_eq]
    omega
  have hcont2 : contByte (0x80 + v % 64) = true := by
    simp only [contByte, Bool.and_eq_true, decide_eq_true_eq]
    omega
  simp only [utf8Step]
  rw [if_neg (by omega : ¬(0xE0 + v / 4096 < 0x80)),
    if_neg (by omega : ¬(0xE0 + v / 4096 < 0xC0)),
    if_neg (by omega : ¬(0xE0 + v / 4096 < 0xE0)),
    if_pos (by omega : 0xE0 + v / 4096 < 0xF0)]
  simp only [hcont1, hcont2, Bool.and_self, if_true]
  have harith : (0xE0 + v / 4096 - 0xE0) * 4096 + (0x80 + v / 64 % 64 - 0x80) * 64
      + (0x80 + v % 64 - 0x80) = v := by omega
  rw [harith, if_neg (by omega : ¬(v < 0x800 ∨ (0xD800 ≤ v ∧ v < 0xE000)))]

theorem utf8Step_four (v : Nat) (r : List Nat) (h3 : 0x10000 ≤ v) (h4 : v < 0x110000) :
    utf8Step (0xF0 + v / 0x40000)
      ((0x80 + v / 4096 % 64) :: (0x80 + v / 64 % 64) :: (0x80 + v % 64) :: r)
      = some (v, r) := by
  have hcont1 : contByte (0x80 + v / 4096 % 64) = true := by
    simp only [contByte, Bool.and_eq_true, decide_eq_true_eq]
    omega
  have hcont2 : contByte (0x80 + v / 64 % 64) = true := by
    simp only [contByte, Bool.and_eq_true, decide_eq_true_eq]
    omega
  have hcont3 : contByte (0x80 + v % 64) = true := by
    simp only [contByte, Bool.and_eq_true, decide_eq_true_eq]
    omega
  simp only [utf8Step]
  rw [if_neg (by omega : ¬(0xF0 + v / 0x40000 < 0x80)),
    if_neg (by omega : ¬(0xF0 + v / 0x40000 < 0xC0)),
    if_neg (by omega : ¬(0xF0 + v / 0x40000 < 0xE0)),
    if_neg (by omega : ¬(0xF0 + v / 0x40000 < 0xF0)),
    if_pos (by omega : 0xF0 + v / 0x40000 < 0xF8)]
  simp only [hcont1, hcont2, hcont3, Bool.and_self, if_true]
  have harith : (0xF0 + v / 0x40000 - 0xF0) * 0x40000 + (0x80 + v / 4096 % 64 - 0x80) * 4096
      + (0x80 + v / 64 % 64 - 0x80) * 64 + (0x80 + v % 64 - 0x80) = v := by omega
  rw [harith, if_neg (by omega : ¬(v < 0x10000 ∨ 0x110000 ≤ v))]

theorem utf8DecodeGo_encode (cs : List Char) : ∀ fuel, (utf8Encode cs).length < fuel →
    utf8DecodeGo fuel (utf8Encode cs) = some cs := by
  induction cs with
  | nil =>
    intro fuel hf
    cases fuel with
    | zero => omega
    | succ f => rfl
  | cons c cs ih =>
    intro fuel hf
    have hofc : Char.ofNat c.toNat = c := Char.ofNat_toNat c
    have hval := char_valid_range c
    by_cases h1 : c.toNat < 0x80
    · have henc : utf8Encode (c :: cs) = c.toNat :: utf8Encode cs := by
        simp [utf8Encode, utf8EncodeChar, h1]
      rw [henc] at hf ⊢
      cases fuel with
      | zero => omega
      | succ f =>
        have hstep := utf8Step_ascii c.toNat (utf8Encode cs) h1
        have hih := ih f (by simp only [List.length_cons] at hf; omega)
        simp only [utf8DecodeGo, hstep, hih, hofc]
    · by_cases h2 : c.toNat < 0x800
      · have henc : utf8Encode (c :: cs)
            = (0xC0 + c.toNat / 64) :: (0x80 + c.toNat % 64) :: utf8Encode cs := by
          simp [utf8Encode, utf8EncodeChar, h1, h2]
        rw [henc] at hf ⊢
        cases fuel with
        | zero => omega
        | succ f =>
          have hstep := utf8Step_two c.toNat (utf8Encode cs) (by omega) h2
          have hih := ih f (by simp only [List.length_cons] at hf; omega)
          simp only [utf8DecodeGo, hstep, hih, hofc]
      · by_cases h3 : c.toNat < 0x10000
        · have hs : ¬(0xD800 ≤ c.toNat ∧ c.toNat < 0xE000) := by
            rcases hval with h | h <;> omega
          have henc : utf8Encode (c :: cs)
              = (0xE0 + c.toNat / 4096) :: (0x80 + c.toNat / 64 % 64)
                :: (0x80 + c.toNat % 64) :: utf8Encode cs := by
            simp [utf8Encode, utf8EncodeChar, h1, h2, h3]
          rw [henc] at hf ⊢
          cases fuel with
          | zero => omega
          | succ f =>
            have hstep := utf8Step_three c.toNat (utf8Encode cs) (by omega) h3 hs
            have hih := ih f (by simp only [List.length_cons] at hf; omega)
            simp only [utf8DecodeGo, hstep, hih, hofc]
        · have h4 : c.toNat < 0x110000 := by
            rcases hval with h | h <;> omega
          have henc : utf8Encode (c :: cs)
              = (0xF0 + c.toNat / 0x40000) :: (0x80 + c.toNat / 4096 % 64)
                :: (0x80 + c.toNat / 64 % 64) :: (0x80 + c.toNat % 64)
                :: utf8Encode cs := by
            simp [utf8Encode, utf8EncodeChar, h1, h2, h3]
          rw [henc] at hf ⊢
          cases fuel with
          | zero => omega
          | succ f =>
            have hstep := utf8Step_four c.toNat (utf8Encode cs) (by omega) h4
            have hih := ih f (by simp only [List.length_cons] at hf; omega)
            simp only [utf8DecodeGo, hstep, hih, hofc]

theorem utf8_roundtrip (cs : List Char) : utf8Decode (utf8Encode cs) = some cs :=
  utf8DecodeGo_encode cs ((utf8Encode cs).length + 1) (by omega)


/-! ### Send / receive framing -/

theorem from_to_bytes_4be (n : Nat) (h : n < 2 ^ 32) :
    from_bytes_4be (n / 16777216 % 256) (n / 65536 % 256) (n / 256 % 256) (n % 256)
      = n := by
  simp only [from_bytes_4be]
  omega

theorem utf8EncodeChar_length_pos (c : Char) : 1 ≤ (utf8EncodeChar c).length := by
  by_cases hA : c.toNat < 0x80
  · simp [utf8EncodeChar, hA]
  · by_cases hB : c.toNat < 0x800
    · simp [utf8EncodeChar, hA, hB]
    · by_cases hC : c.toNat < 0x10000
      · simp [utf8EncodeChar, hA, hB, hC]
      · simp [utf8EncodeChar, hA, hB, hC]

theorem utf8Encode_length_pos (c : Char) (cs : List Char) :
    1 ≤ (utf8Encode (c :: cs)).length := by
  have := utf8EncodeChar_length_pos c
  simp only [utf8Encode, List.flatMap_cons, List.length_append]
  omega

/-- A well-formed frame whose body decodes and parses to a JSON object is
received exactly: the object comes back and the stream continues at the
first byte after the frame. -/
theorem receive_message_frame (body more : List Nat) (chars : List Char) (ms : JMembers)
    (h1 : 1 ≤ body.length) (hmax : body.length ≤ MAX_MESSAGE)
    (hdec : utf8Decode body = some chars)
    (hjson : json_loads chars = some (JVal.obj ms)) :
    receive_message (to_bytes_4be body.length ++ body ++ more)
      = (some (JVal.obj ms), more) := by
  have h32 : MAX_MESSAGE < 2 ^ 32 := by decide
  have hlt : body.length < 2 ^ 32 := by omega
  have harr : to_bytes_4be body.length ++ body ++ more
      = (body.length / 16777216 % 256) :: (body.length / 65536 % 256)
        :: (body.length / 256 % 256) :: (body.length % 256) :: (body ++ more) := by
    simp [to_bytes_4be]
  have hfrom := from_to_bytes_4be body.length hlt
  have hguard : ¬(body.length = 0 ∨ body.length > MAX_MESSAGE) := by omega
  have hlen2 : ¬((body ++ more).length < body.length) := by
    simp only [List.length_append]
    omega
  have htake : (body ++ more).take body.length = body := List.take_left body more
  have hdrop : (body ++ more).drop body.length = more := List.drop_left body more
  rw [harr]
  simp only [receive_message, hfrom]
  rw [if_neg hguard, if_neg hlen2, htake, hdrop, hdec]
  simp only [hjson]

/-- C4: for every message-type string and every JSON-serializable payload
(any `JVal`, nested structures included) whose serialized frame is within
the 1 MiB limit, `send_message` followed by `receive_message` on the
resulting byte stream reproduces a message whose `msg_type` and `data`
fields are exactly the ones sent, leaving the rest of the stream unread. -/
theorem connection_send_receive_roundtrip (msg_type : String) (data : JVal)
    (timestamp : String) (more : List Nat)
    (hmax : (utf8Encode (JVal.dumps (messageObj msg_type data timestamp))).length
      ≤ MAX_MESSAGE) :
    ∃ frame ms,
      send_message msg_type data timestamp = some frame ∧
      receive_message (frame ++ more) = (some (JVal.obj ms), more) ∧
      JMembers.get ms "msg_type" = some (JVal.str msg_type) ∧
      JMembers.get ms "data" = some data := by
  have hL0 : 1 ≤ (utf8Encode (JVal.dumps (messageObj msg_type data timestamp))).length := by
    obtain ⟨c, t, heq, -, -⟩ := dumps_head (messageObj msg_type data timestamp)
    rw [heq]
    exact utf8Encode_length_pos c t
  have h32 : MAX_MESSAGE < 2 ^ 32 := by decide
  have hlt : (utf8Encode (JVal.dumps (messageObj msg_type data timestamp))).length
      < 2 ^ 32 := by omega
  have hjson : json_loads (JVal.dumps (messageObj msg_type data timestamp))
      = some (JVal.obj (JMembers.cons "msg_type" (JVal.str msg_type)
        (JMembers.cons "data" data
          (JMembers.cons "timestamp" (JVal.str timestamp) JMembers.nil)))) :=
    json_loads_dumps (messageObj msg_type data timestamp)
  refine ⟨to_bytes_4be
      (utf8Encode (JVal.dumps (messageObj msg_type data timestamp))).length
      ++ utf8Encode (JVal.dumps (messageObj msg_type data timestamp)),
    JMembers.cons "msg_type" (JVal.str msg_type)
      (JMembers.cons "data" data
        (JMembers.cons "timestamp" (JVal.str timestamp) JMembers.nil)),
    ?_, ?_, ?_, ?_⟩
  · simp only [send_message]
    rw [if_pos hlt]
  · exact receive_message_frame _ more _ _ hL0 hmax (utf8_roundtrip _) hjson
  · rfl
  · rfl

/-- C4 witness: a concrete `input_event` message with a nested payload
survives the send/receive round trip with `msg_type` and `data` intact. -/
theorem connection_send_receive_roundtrip_witness :
    ((utf8Encode (JVal.dumps (messageObj "input_event"
        (JVal.obj (JMembers.cons "pos"
          (JVal.arr (JItems.cons (JVal.int 3) (JItems.cons (JVal.int (-7)) JItems.nil)))
          JMembers.nil)) "2025-01-01"))).length ≤ MAX_MESSAGE) ∧
    (∃ frame ms,
      send_message "input_event"
          (JVal.obj (JMembers.cons "pos"
            (JVal.arr (JItems.cons (JVal.int 3) (JItems.cons (JVal.int (-7)) JItems.nil)))
            JMembers.nil)) "2025-01-01" = some frame ∧
      receive_message (frame ++ [9]) = (some (JVal.obj ms), [9]) ∧
      JMembers.get ms "msg_type" = some (JVal.str "input_event") ∧
      JMembers.get ms "data" = some (JVal.obj (JMembers.cons "pos"
        (JVal.arr (JItems.cons (JVal.int 3) (JItems.cons (JVal.int (-7)) JItems.nil)))
        JMembers.nil))) :=
  ⟨by decide,
   connection_send_receive_roundtrip "input_event"
     (JVal.obj (JMembers.cons "pos"
       (JVal.arr (JItems.cons (JVal.int 3) (JItems.cons (JVal.int (-7)) JItems.nil)))
       JMembers.nil)) "2025-01-01" [9] (by decide)⟩

/-- C3: a 4-byte length prefix above the 1 MiB limit is a protocol error:
`receive_message` reports the typed failure (`none`, no payload) right
after the 4 header bytes — the declared payload is not read, skipped or
resynchronized, so the stream is abandoned as unframed. -/
theorem connection_oversized_frame_rejected (b0 b1 b2 b3 : Nat) (rest : List Nat)
    (h : from_bytes_4be b0 b1 b2 b3 > MAX_MESSAGE) :
    receive_message (b0 :: b1 :: b2 :: b3 :: rest) = (none, rest) := by
  simp only [receive_message]
  rw [if_pos (Or.inr h)]

/-- C3 witness: the length prefix `00 10 00 01` declares 1 MiB + 1 bytes;
the receiver rejects it and leaves the declared payload unread. -/
theorem connection_oversized_frame_rejected_witness :
    from_bytes_4be 0 16 0 1 > MAX_MESSAGE ∧
    receive_message (0 :: 16 :: 0 :: 1 :: [5, 6, 7]) = (none, [5, 6, 7]) :=
  ⟨by decide, connection_oversized_frame_rejected 0 16 0 1 [5, 6, 7] (by decide)⟩

/-- C9 witness: `input_event_payload_validated` applied to `eventA` (whose
construction succeeds) and, for the rejection direction, to a MOUSE_MOVE
event with a keycode-only payload (whose construction fails). -/
theorem input_event_payload_validated_witness :
    (InputEvent.make eventA = some eventA →
      InputEvent.payloadMatches eventA.event_type eventA.payload = true) ∧
    InputEvent.make eventA = some eventA ∧
    (InputEvent.payloadMatches ({ eventA with event_type := .MOUSE_MOVE } : InputEvent).event_type
        ({ eventA with event_type := .MOUSE_MOVE } : InputEvent).payload = false →
      InputEvent.make { eventA with event_type := .MOUSE_MOVE } = none) ∧
    InputEvent.payloadMatches ({ eventA with event_type := .MOUSE_MOVE } : InputEvent).event_type
        ({ eventA with event_type := .MOUSE_MOVE } : InputEvent).payload = false :=
  ⟨(input_event_payload_validated eventA eventA).1, by decide,
   (input_event_payload_validated { eventA with event_type := .MOUSE_MOVE }
      { eventA with event_type := .MOUSE_MOVE }).2, by decide⟩

/-! ### Round trip of `isoformat` / `fromisoformat` -/

theorem natChars_length_le (n : Nat) : ∀ w, n < 10 ^ w → 1 ≤ w →
    (natChars n).length ≤ w := by
  induction n using Nat.strongRecOn with
  | _ n ih =>
    intro w h hw
    rw [natChars_unfold]
    by_cases hn : n < 10
    · rw [if_pos hn]
      simpa using hw
    · rw [if_neg hn]
      have hw2 : 2 ≤ w := by
        by_contra hcon
        have hw1 : w = 1 := by omega
        subst hw1
        rw [pow_one] at h
        omega
      have hdiv : n / 10 < 10 ^ (w - 1) := by
        have hpow : 10 ^ w = 10 ^ (w - 1) * 10 := by
          rw [← pow_succ]
          congr 1
          omega
        rw [hpow] at h
        exact (Nat.div_lt_iff_lt_mul (by omega)).mpr h
      have hrec := ih (n / 10) (by omega) (w - 1) hdiv (by omega)
      simp only [List.length_append, List.length_cons, List.length_nil]
      omega

theorem padNat_length (w n : Nat) (h : (natChars n).length ≤ w) :
    (padNat w n).length = w := by
  simp only [padNat, List.length_append, List.length_replicate]
  omega

theorem padNat_digits (w n : Nat) : ∀ c ∈ padNat w n, isDigitChar c = true := by
  intro c hc
  rcases List.mem_append.mp hc with h | h
  · rw [List.eq_of_mem_replicate h]
    decide
  · exact natChars_digits n c h

theorem digitsVal_padNat (w n : Nat) : digitsVal (padNat w n) = n := by
  have hrep : ∀ k, List.foldl (fun a c => a * 10 + (c.toNat - '0'.toNat)) 0
      (List.replicate k '0') = 0 := by
    intro k
    induction k with
    | zero => rfl
    | succ k2 ih =>
      rw [List.replicate_succ, List.foldl_cons]
      have h0 : 0 * 10 + ('0'.toNat - '0'.toNat) = 0 := by decide
      rw [h0]
      exact ih
  simp only [padNat, digitsVal, List.foldl_append, hrep]
  exact digitsVal_natChars n

theorem parseNDigits_go : ∀ (ds : List Char) (acc : Nat) (rest : List Char),
    (∀ c ∈ ds, isDigitChar c = true) →
    parseNDigits ds.length acc (ds ++ rest)
      = some (ds.foldl (fun a c => a * 10 + (c.toNat - '0'.toNat)) acc, rest) := by
  intro ds
  induction ds with
  | nil => intro acc rest hd; rfl
  | cons c t ih =>
    intro acc rest hd
    have hc : isDigitChar c = true := hd c (List.mem_cons_self c t)
    simp only [List.length_cons, List.cons_append, parseNDigits, hc, if_true,
      List.foldl_cons]
    exact ih _ rest (fun c2 h2 => hd c2 (List.mem_cons_of_mem c h2))

theorem parseNDigits_padNat (w n : Nat) (rest : List Char) (h : n < 10 ^ w)
    (hw : 1 ≤ w) : parseNDigits w 0 (padNat w n ++ rest) = some (n, rest) := by
  have hlen : (natChars n).length ≤ w := natChars_length_le n w h hw
  have hgo := parseNDigits_go (padNat w n) 0 rest (padNat_digits w n)
  rw [padNat_length w n hlen] at hgo
  rw [hgo]
  have hv := digitsVal_padNat w n
  simp only [digitsVal] at hv
  rw [hv]

theorem parseNDigits_padNat_end (w n : Nat) (h : n < 10 ^ w) (hw : 1 ≤ w) :
    parseNDigits w 0 (padNat w n) = some (n, []) := by
  have := parseNDigits_padNat w n [] h hw
  rwa [List.append_nil] at this

theorem expectChar_eq (c : Char) (r : List Char) : expectChar c (c :: r) = some r := by
  simp [expectChar]

theorem parseTimePart_us0 (hh mi s : Nat) (off : List Char)
    (h1 : hh ≤ 99) (h2 : mi ≤ 99) (h3 : s ≤ 99)
    (hd : ∀ r7, off ≠ '.' :: r7) :
    parseTimePart ('T' :: (padNat 2 hh ++ ':' :: (padNat 2 mi ++ ':' :: (padNat 2 s ++ off))))
      = some (hh, mi, s, 0, off) := by
  have hp2 : (10:Nat) ^ 2 = 100 := by norm_num
  simp only [parseTimePart, if_true]
  rw [parseNDigits_padNat 2 hh _ (by omega) (by omega)]
  simp only [Option.some_bind]
  rw [expectChar_eq]
  simp only [Option.some_bind]
  rw [parseNDigits_padNat 2 mi _ (by omega) (by omega)]
  simp only [Option.some_bind]
  rw [expectChar_eq]
  simp only [Option.some_bind]
  rw [parseNDigits_padNat 2 s _ (by omega) (by omega)]
  simp only [Option.some_bind]
  cases off with
  | nil => rfl
  | cons c2 r7 =>
    have hne : ¬(c2 = '.') := fun he => hd r7 (by rw [he])
    simp only [if_neg hne]

theorem parseTimePart_usPos (hh mi s us : Nat) (off : List Char)
    (h1 : hh ≤ 99) (h2 : mi ≤ 99) (h3 : s ≤ 99) (h4 : us ≤ 999999) :
    parseTimePart ('T' :: (padNat 2 hh ++ ':' :: (padNat 2 mi ++ ':'
        :: (padNat 2 s ++ '.' :: (padNat 6 us ++ off)))))
      = some (hh, mi, s, us, off) := by
  have hp2 : (10:Nat) ^ 2 = 100 := by norm_num
  have hp6 : (10:Nat) ^ 6 = 1000000 := by norm_num
  simp only [parseTimePart, if_true]
  rw [parseNDigits_padNat 2 hh _ (by omega) (by omega)]
  simp only [Option.some_bind]
  rw [expectChar_eq]
  simp only [Option.some_bind]
  rw [parseNDigits_padNat 2 mi _ (by omega) (by omega)]
  simp only [Option.some_bind]
  rw [expectChar_eq]
  simp only [Option.some_bind]
  rw [parseNDigits_padNat 2 s _ (by omega) (by omega)]
  simp only [Option.some_bind, if_true]
  rw [parseNDigits_padNat 6 us _ (by omega) (by omega)]
  simp only [Option.some_bind]

theorem parseOffsetPart_some (m : Int) (hm1 : -1439 ≤ m) (hm2 : m ≤ 1439) :
    parseOffsetPart ((if m < 0 then '-' else '+')
      :: (padNat 2 (m.natAbs / 60) ++ ':' :: padNat 2 (m.natAbs % 60)))
      = some (some m, []) := by
  have hp2 : (10:Nat) ^ 2 = 100 := by norm_num
  have habs : m.natAbs ≤ 1439 := by omega
  by_cases hm : m < 0
  · simp only [if_pos hm]
    simp only [parseOffsetPart, or_true, if_true]
    rw [parseNDigits_padNat 2 (m.natAbs / 60) _ (by omega) (by omega)]
    simp only [Option.some_bind]
    rw [expectChar_eq]
    simp only [Option.some_bind]
    rw [parseNDigits_padNat_end 2 (m.natAbs % 60) (by omega) (by omega)]
    simp only [Option.some_bind]
    have harith : -(((m.natAbs / 60 * 60 + m.natAbs % 60 : Nat) : Int)) = m := by omega
    rw [harith]
  · simp only [if_neg hm]
    simp only [parseOffsetPart, true_or, if_true]
    rw [parseNDigits_padNat 2 (m.natAbs / 60) _ (by omega) (by omega)]
    simp only [Option.some_bind]
    rw [expectChar_eq]
    simp only [Option.some_bind]
    rw [parseNDigits_padNat_end 2 (m.natAbs % 60) (by omega) (by omega)]
    simp only [Option.some_bind]
    rw [if_neg (by decide : ¬(('+' : Char) = '-'))]
    have harith : (((m.natAbs / 60 * 60 + m.natAbs % 60 : Nat) : Int)) = m := by omega
    rw [harith]

theorem fromisoformat_build (y mo d hh mi s us : Nat) (tz : Option Int)
    (timeRest offRest : List Char)
    (hy : y ≤ 9999) (hmo : mo ≤ 99) (hdd : d ≤ 99)
    (htp : parseTimePart timeRest = some (hh, mi, s, us, offRest))
    (hop : parseOffsetPart offRest = some (tz, []))
    (hval : PyDateTime.valid ⟨y, mo, d, hh, mi, s, us, tz⟩ = true) :
    PyDateTime.fromisoformat (padNat 4 y ++ '-' :: (padNat 2 mo ++ '-' :: (padNat 2 d ++ timeRest)))
      = some ⟨y, mo, d, hh, mi, s, us, tz⟩ := by
  have hp4 : (10:Nat) ^ 4 = 10000 := by norm_num
  have hp2 : (10:Nat) ^ 2 = 100 := by norm_num
  simp only [PyDateTime.fromisoformat]
  rw [parseNDigits_padNat 4 y _ (by omega) (by omega)]
  simp only [Option.some_bind]
  rw [expectChar_eq]
  simp only [Option.some_bind]
  rw [parseNDigits_padNat 2 mo _ (by omega) (by omega)]
  simp only [Option.some_bind]
  rw [expectChar_eq]
  simp only [Option.some_bind]
  rw [parseNDigits_padNat 2 d _ (by omega) (by omega)]
  simp only [Option.some_bind]
  rw [htp]
  simp only [Option.some_bind]
  rw [hop]
  simp only [Option.some_bind, List.isEmpty_nil, if_true]
  rw [if_pos hval]

theorem fromisoformat_isoformat (t : PyDateTime) (hv : t.valid = true) :
    PyDateTime.fromisoformat t.isoformat = some t := by
  obtain ⟨y, mo, d, hh, mi, s, us, tz⟩ := t
  cases tz with
  | none =>
    simp only [PyDateTime.valid, Bool.and_eq_true, decide_eq_true_eq, and_true] at hv
    simp only [PyDateTime.isoformat]
    by_cases hus : us = 0
    · rw [if_neg (show ¬(us ≠ 0) from fun hne => hne hus)]
      simp only [List.nil_append]
      rw [hus]
      exact fromisoformat_build y mo d hh mi s 0 none _ []
        (by omega) (by omega) (by omega)
        (parseTimePart_us0 hh mi s [] (by omega) (by omega) (by omega)
          (fun r7 h => List.noConfusion h))
        rfl
        (by simp only [PyDateTime.valid, Bool.and_eq_true, decide_eq_true_eq, and_true]
            omega)
    · rw [if_pos hus]
      simp only [List.cons_append]
      exact fromisoformat_build y mo d hh mi s us none _ []
        (by omega) (by omega) (by omega)
        (parseTimePart_usPos hh mi s us [] (by omega) (by omega) (by omega) (by omega))
        rfl
        (by simp only [PyDateTime.valid, Bool.and_eq_true, decide_eq_true_eq, and_true]
            omega)
  | some m =>
    simp only [PyDateTime.valid, Bool.and_eq_true, decide_eq_true_eq, and_true] at hv
    simp only [PyDateTime.isoformat]
    by_cases hus : us = 0
    · rw [if_neg (show ¬(us ≠ 0) from fun hne => hne hus)]
      simp only [List.nil_append]
      rw [hus]
      refine fromisoformat_build y mo d hh mi s 0 (some m) _ _
        (by omega) (by omega) (by omega)
        (parseTimePart_us0 hh mi s _ (by omega) (by omega) (by omega) ?_)
        (parseOffsetPart_some m (by omega) (by omega))
        (by simp only [PyDateTime.valid, Bool.and_eq_true, decide_eq_true_eq, and_true]
            omega)
      intro r7 h
      by_cases hm : m < 0
      · rw [if_pos hm] at h
        injection h with hhead htail
        exact absurd hhead (by decide)
      · rw [if_neg hm] at h
        injection h with hhead htail
        exact absurd hhead (by decide)
    · rw [if_pos hus]
      simp only [List.cons_append]
      exact fromisoformat_build y mo d hh mi s us (some m) _ _
        (by omega) (by omega) (by omega)
        (parseTimePart_usPos hh mi s us _ (by omega) (by omega) (by omega) (by omega))
        (parseOffsetPart_some m (by omega) (by omega))
        (by simp only [PyDateTime.valid, Bool.and_eq_true, decide_eq_true_eq, and_true]
            omega)

theorem fromValue_value (et : InputEventType) :
    InputEventType.fromValue et.value = some et := by
  cases et <;> rfl

/-- C6: for every successfully constructed `InputEvent` (of any kind),
`from_dict (to_dict e)` rebuilds an event equal to `e` — id, kind, source
and target device ids, payload, timestamp and encryption flag included.
(`e.timestamp.valid` records that the timestamp is a real `datetime`,
which Python's `datetime` constructor guarantees.) -/
theorem input_event_dict_roundtrip (e : InputEvent)
    (hmake : InputEvent.make e = some e) (htime : e.timestamp.valid = true) :
    InputEvent.from_dict (InputEvent.to_dict e) = some e := by
  have h1 : asStr ((InputEvent.to_dict e).get "event_type")
      = some e.event_type.value := rfl
  have h2 : asStr ((InputEvent.to_dict e).get "source_device_id")
      = some e.source_device_id := rfl
  have h3 : asStr ((InputEvent.to_dict e).get "target_device_id")
      = some e.target_device_id := rfl
  have h4 : asObj ((InputEvent.to_dict e).get "payload") = some e.payload := rfl
  have h5 : asStr ((InputEvent.to_dict e).get "timestamp")
      = some (String.mk e.timestamp.isoformat) := rfl
  have h6 : (InputEvent.to_dict e).get "id" = some (.str e.id) := rfl
  have h7 : (InputEvent.to_dict e).get "is_encrypted"
      = some (.bool e.is_encrypted) := rfl
  have h8 : (String.mk e.timestamp.isoformat).toList = e.timestamp.isoformat := rfl
  simp only [InputEvent.from_dict, h1, h2, h3, h4, h5, h6, h7, h8,
    Option.some_bind, fromValue_value]
  rw [fromisoformat_isoformat e.timestamp htime]
  simp only [Option.some_bind]
  show InputEvent.make e = some e
  exact hmake

/-- C6 witness: `eventA` (a KEY_PRESS event with a microsecond-precision
UTC timestamp) survives the dict round trip unchanged. -/
theorem input_event_dict_roundtrip_witness :
    InputEvent.make eventA = some eventA ∧
    eventA.timestamp.valid = true ∧
    InputEvent.from_dict (InputEvent.to_dict eventA) = some eventA :=
  ⟨by decide, by decide, input_event_dict_roundtrip eventA (by decide) (by decide)⟩

end KMS
